import Mathlib

/-!
# Accelerated-Report: the offline delivery queue of `frontend/app.js`

A shallow embedding of the report queue kept in `localStorage` by `frontend/app.js`
(`submitReport`, `queueReport`, `getQueue`, `saveQueue`, the interval callback installed by
`startQueueProcessor`, `addToRecent`, `getRecent`, `saveRecent`, `displayRecent`, `truncate`).

Conventions of the embedding.

* JavaScript values that travel through `JSON.stringify` / `JSON.parse` are `JSValue`;
  numbers are restricted to integers. An object is the list of its own properties in
  enumeration order; `undefined` is `none`.
* A `localStorage` key is described by what `JSON.parse` makes of its text (`Stored`).
* `new Date().toISOString()` is the parameter `now`; `Math.random()` under chaos mode is the
  parameter `chaosFault`; the result of `fetch` followed by `response.json()` is an `Outcome`.
* DOM updates (`showStatus`, `updateQueueUI`, the `innerHTML` writes) do not touch
  `localStorage` and are left out; the exceptions `displayRecent` can raise through
  `truncate` are kept, because they change control flow. The page elements are taken to
  exist and `localStorage.setItem` to succeed.
* Where JavaScript would coerce a string, array or object to a number or string the model
  stops with `none` (the step is outside the modelled fragment).
-/

namespace AcceleratedReport

/-! ## Values -/

/-- JSON values as `JSON.parse` yields them, with integer numbers only. -/
inductive JSValue where
  | null
  | bool (b : Bool)
  | num (n : Int)
  | str (s : String)
  | arr (items : List JSValue)
  | obj (props : List (String × JSValue))

/-- An object: its own enumerable properties, in enumeration order. -/
abbrev JSObject := List (String × JSValue)

/-- Property read `o.k`; `none` is `undefined`. -/
def getProp : JSObject → String → Option JSValue
  | [], _ => none
  | (k', v) :: rest, k => if k' = k then some v else getProp rest k

/-- Property write `o.k = v`: an existing property keeps its place, a new one goes last. -/
def setProp : JSObject → String → JSValue → JSObject
  | [], k, v => [(k, v)]
  | (k', v') :: rest, k, v => if k' = k then (k, v) :: rest else (k', v') :: setProp rest k v

/-- An object literal as `JSON.stringify` writes it: properties whose value is `undefined`
are omitted. -/
def definedProps : List (String × Option JSValue) → JSObject
  | [] => []
  | (_, none) :: rest => definedProps rest
  | (k, some v) :: rest => (k, v) :: definedProps rest

/-- The value is absent, null or a primitive, so that putting it into a template string or
handing it to `new Date` cannot throw. Arrays and objects there are outside the fragment. -/
def isPlain : Option JSValue → Bool
  | some (.arr _) => false
  | some (.obj _) => false
  | _ => true

/-- Truthiness of a value. -/
def truthy : Option JSValue → Bool
  | none => false
  | some .null => false
  | some (.bool b) => b
  | some (.num n) => decide (n ≠ 0)
  | some (.str s) => decide (s ≠ "")
  | some (.arr _) => true
  | some (.obj _) => true

/-- Exceptions raised by the platform or by `throw new Error(...)`. -/
inductive JSError where
  | syntaxError
  | typeError
  | error
  deriving DecidableEq, Repr

/-! ## localStorage -/

/-- What one `localStorage` key holds, up to what `JSON.parse` makes of the text. -/
inductive Stored where
  /-- The key is not set: `getItem` returns `null`. -/
  | unset
  /-- The key holds the empty string. -/
  | emptyText
  /-- The key holds non-empty text that is not valid JSON: `JSON.parse` throws. -/
  | malformed
  /-- The key holds text that `JSON.parse` turns into the value. -/
  | json (v : JSValue)

/-- The two keys of the application: `QUEUE_KEY` and `RECENT_KEY`. -/
structure Storage where
  queue : Stored
  recent : Stored

/-- The expression `stored ? JSON.parse(stored) : []`. -/
def parseOrEmpty : Stored → Except JSError JSValue
  | .unset => .ok (.arr [])
  | .emptyText => .ok (.arr [])
  | .malformed => .error .syntaxError
  | .json v => .ok v

/-- Source `getQueue` (app.js 280-283). -/
def getQueue (st : Storage) : Except JSError JSValue :=
  parseOrEmpty st.queue

/-- Source `saveQueue` (app.js 286-288). -/
def saveQueue (queue : List JSValue) (st : Storage) : Storage :=
  { st with queue := .json (.arr queue) }

/-- Source `getRecent` (app.js 396-399). -/
def getRecent (st : Storage) : Except JSError JSValue :=
  parseOrEmpty st.recent

/-- Source `saveRecent` (app.js 402-404). -/
def saveRecent (recent : List JSValue) (st : Storage) : Storage :=
  { st with recent := .json (.arr recent) }

/-- How a synchronous stretch of code ends, with the storage it leaves. -/
inductive Completion where
  | returned (st : Storage)
  | threw (e : JSError) (st : Storage)

/-- Storage left behind by a completion. -/
def Completion.storage : Completion → Storage
  | .returned st => st
  | .threw _ st => st

/-! ## Queueing a report -/

/-- The object literal of `queueReport`: the spread of the report, then `queued_at` and
`retry_count`. -/
def queueEntry (now : String) (reportData : JSObject) : JSObject :=
  setProp (setProp reportData "queued_at" (.str now)) "retry_count" (.num 0)

/-- Source `queueReport` (app.js 268-277). -/
def queueReport (now : String) (reportData : JSObject) (st : Storage) : Completion :=
  match getQueue st with
  | .error e => .threw e st
  | .ok (.arr queue) => .returned (saveQueue (queue ++ [.obj (queueEntry now reportData)]) st)
  | .ok _ => .threw .typeError st

/-! ## Recent submissions -/

/-- Whether `truncate(str, 50)` (app.js 459-461) returns or throws, for a message that is
absent, null or a primitive; arrays and objects are outside the fragment. -/
def truncate : Option JSValue → Option (Except JSError Unit)
  | none => some (.error .typeError)
  | some .null => some (.error .typeError)
  | some (.bool _) => some (.ok ())
  | some (.num _) => some (.ok ())
  | some (.str _) => some (.ok ())
  | some (.arr _) => none
  | some (.obj _) => none

/-- One round of the `recent.map` callback of `displayRecent` (app.js 421-427). Reading
`item.type` throws on `null`; on any other item that is not an object the message is
`undefined` and `truncate` throws. On an object the template converts `item.type` to a
string, then calls `truncate(item.message, 50)`, then `formatTime(item.timestamp)`. -/
def displayItem : JSValue → Option (Except JSError Unit)
  | .obj props =>
    if isPlain (getProp props "type") then
      match truncate (getProp props "message") with
      | some (.ok ()) => if isPlain (getProp props "timestamp") then some (.ok ()) else none
      | r => r
    else none
  | _ => some (.error .typeError)

/-- The `recent.map(...)` of `displayRecent`, left to right. -/
def displayItems : List JSValue → Option (Except JSError Unit)
  | [] => some (.ok ())
  | item :: rest =>
    match displayItem item with
    | some (.ok ()) => displayItems rest
    | r => r

/-- Source `displayRecent` (app.js 412-428), as far as exceptions go. -/
def displayRecent (st : Storage) : Option (Except JSError Unit) :=
  match getRecent st with
  | .error e => some (.error e)
  | .ok (.arr items) => displayItems items
  | .ok _ => none

/-- The record `addToRecent` puts in front of the list, as it is stored. -/
def recentRecord (now : String) (reportData : JSObject) (reportId : Option JSValue) :
    JSObject :=
  definedProps [("id", reportId), ("type", getProp reportData "type"),
    ("message", getProp reportData "message"), ("timestamp", some (.str now))]

/-- The statement `if (recent.length > 5) recent.pop()`. -/
def popIfOver (recent : List JSValue) : List JSValue :=
  if recent.length > 5 then recent.dropLast else recent

/-- Source `addToRecent` (app.js 377-393). -/
def addToRecent (now : String) (reportData : JSObject) (reportId : Option JSValue)
    (st : Storage) : Option Completion :=
  match getRecent st with
  | .error e => some (.threw e st)
  | .ok (.arr recent) =>
    let st1 := saveRecent (popIfOver (.obj (recentRecord now reportData reportId) :: recent)) st
    match displayRecent st1 with
    | none => none
    | some (.ok ()) => some (.returned st1)
    | some (.error e) => some (.threw e st1)
  | .ok _ => some (.threw .typeError st)

/-! ## Delivery attempts -/

/-- What `fetch` followed by `response.json()` comes to. -/
inductive Outcome where
  /-- The promise of `fetch` rejects. -/
  | networkFault
  /-- A response whose `ok` is false. -/
  | httpError (status : Nat)
  /-- A 2xx response whose body is not JSON: `response.json()` rejects. -/
  | bodyNotJson
  /-- A 2xx response whose body parses to the value. -/
  | json (body : JSValue)

/-- Property read `result.k` on a parsed response body that is not null. -/
def resultProp : JSValue → String → Option JSValue
  | .obj props, k => getProp props k
  | _, _ => none

/-- The status line of a delivered submit (app.js 243-247) converts `result.category` to a
string when `result.ai_enriched` is truthy; a category that is an array or object is
outside the fragment. -/
def sentStatus (result : JSValue) : Option Unit :=
  if truthy (resultProp result "ai_enriched") && !isPlain (resultProp result "category")
  then none else some ()

/-- The `try` block of `submitReport` (app.js 217-252). -/
def submitTry (now : String) (chaosFault : Bool) (out : Outcome) (reportData : JSObject)
    (st : Storage) : Option Completion :=
  if chaosFault then some (.threw .error st)
  else
    match out with
    | .networkFault => some (.threw .typeError st)
    | .httpError _ => some (.threw .error st)
    | .bodyNotJson => some (.threw .syntaxError st)
    | .json .null => some (.threw .typeError st)
    | .json result =>
      match sentStatus result with
      | none => none
      | some () => addToRecent now reportData (resultProp result "report_id") st

/-- Source `submitReport` (app.js 213-262): the `try` block, and `queueReport` in `catch`. -/
def submitReport (now : String) (chaosFault : Bool) (out : Outcome) (reportData : JSObject)
    (st : Storage) : Option Completion :=
  match submitTry now chaosFault out reportData st with
  | none => none
  | some (.returned st1) => some (.returned st1)
  | some (.threw _ st1) => some (queueReport now reportData st1)

/-! ## The interval callback of startQueueProcessor -/

/-- The locals a callback holds across its `await`: the array `queue` and `item`. -/
structure TickLocals where
  queue : List JSValue
  item : JSObject

/-- The request body of a retry: `JSON.stringify` of the four-property literal (app.js 330-335). -/
def retryPayload (item : JSObject) : JSObject :=
  definedProps [("type", getProp item "type"), ("message", getProp item "message"),
    ("platform", getProp item "platform"), ("app_version", getProp item "app_version")]

/-- How the callback runs up to its first `await`. -/
inductive TickStart where
  /-- The queue is empty: the callback returns. -/
  | idle
  /-- Reading the queue failed and the callback's promise rejects. -/
  | threw (e : JSError)
  /-- A request for the head entry is issued and the callback is suspended. -/
  | request (payload : JSObject) (locals : TickLocals)

/-- The callback from `getQueue()` to the `fetch` call (app.js 314-336). A stored value
that is not an array, or a head that is not an object, is outside the fragment. -/
def tickStart (st : Storage) : Option TickStart :=
  match getQueue st with
  | .error e => some (.threw e)
  | .ok (.arr []) => some .idle
  | .ok (.arr (.obj item :: rest)) =>
    some (.request (retryPayload item) { queue := .obj item :: rest, item := item })
  | .ok _ => none

/-- The expression `result.report_id.substring(0, 8)` returns only when the result is an
object whose `report_id` is a string; everything else is a TypeError. -/
def reportIdString : JSValue → Option String
  | .obj props =>
    match getProp props "report_id" with
    | some (.str s) => some s
    | _ => none
  | _ => none

/-- How the `try` block of the callback ends. An exception carries the local array as it
is at the throw. -/
inductive TryResult where
  | completed (st : Storage)
  | thrown (queue : List JSValue) (st : Storage)

/-- The `try` block of the callback from the response on (app.js 338-350). -/
def tickTry (now : String) (out : Outcome) (l : TickLocals) (st : Storage) :
    Option TryResult :=
  match out with
  | .networkFault => some (.thrown l.queue st)
  | .httpError _ => some (.thrown l.queue st)
  | .bodyNotJson => some (.thrown l.queue st)
  | .json result =>
    let queue1 := l.queue.tail
    let st1 := saveQueue queue1 st
    match reportIdString result with
    | none => some (.thrown queue1 st1)
    | some id =>
      match addToRecent now l.item (some (.str id)) st1 with
      | none => none
      | some (.returned st2) => some (.completed st2)
      | some (.threw _ st2) => some (.thrown queue1 st2)

/-- The expression `(item.retry_count || 0) + 1`, for a count that is absent, falsy, `true`
or a number below 2^53 in size; a non-empty string, an array or an object would be
concatenated and is outside the fragment. -/
def nextRetryCount : Option JSValue → Option Int
  | none => some 1
  | some .null => some 1
  | some (.bool false) => some 1
  | some (.bool true) => some 2
  | some (.num n) => if n.natAbs < 2 ^ 53 then some (n + 1) else none
  | some (.str s) => if s = "" then some 1 else none
  | some (.arr _) => none
  | some (.obj _) => none

/-- The assignment `queue[0] = item`. -/
def setFirst (queue : List JSValue) (item : JSValue) : List JSValue :=
  item :: queue.tail

/-- The `catch` block of the callback (app.js 352-369), run on the local array as the
`try` block left it. -/
def tickCatch (l : TickLocals) (queue : List JSValue) (st : Storage) : Option Completion :=
  match nextRetryCount (getProp l.item "retry_count") with
  | none => none
  | some n =>
    let item := setProp l.item "retry_count" (.num n)
    if n > 10 then some (.returned (saveQueue queue.tail st))
    else some (.returned (saveQueue (setFirst queue (.obj item)) st))

/-- The callback from the response to its end. -/
def tickResume (now : String) (out : Outcome) (l : TickLocals) (st : Storage) :
    Option Completion :=
  match tickTry now out l st with
  | none => none
  | some (.completed st1) => some (.returned st1)
  | some (.thrown queue st1) => tickCatch l queue st1

/-- One tick whose delivery attempt resolves before anything else runs. -/
def tick (now : String) (out : Outcome) (st : Storage) : Option Completion :=
  match tickStart st with
  | none => none
  | some .idle => some (.returned st)
  | some (.threw e) => some (.threw e st)
  | some (.request _ l) => tickResume now out l st

/-- Ticks one after another, each with its clock reading and delivery outcome. A tick
that ends in an exception does not stop the interval. -/
def runTicks : List (String × Outcome) → Storage → Option Storage
  | [], st => some st
  | (now, out) :: rest, st =>
    match tick now out st with
    | none => none
    | some c => runTicks rest c.storage

/-- The delivery attempt of a submit or tick fails: `fetch` rejects, the status is not 2xx,
or the body of a 2xx response is not JSON. -/
def Outcome.isFailure : Outcome → Bool
  | .networkFault => true
  | .httpError _ => true
  | .bodyNotJson => true
  | .json _ => false

/-! ## Well-formed data -/

/-- The report carries a message that is a string, as the form and the quick-action buttons
build it, and a type that is not an array or object. -/
def IsReport (o : JSObject) : Prop :=
  (∃ s, getProp o "message" = some (.str s)) ∧ isPlain (getProp o "type") = true

/-- A stored record of the recent history: an object with a string message, and a type and
a timestamp that are not arrays or objects. -/
def IsRecord (v : JSValue) : Prop :=
  ∃ props, v = .obj props ∧ IsReport props ∧ isPlain (getProp props "timestamp") = true

/-- Sample report of the form handler. -/
def sampleReport : JSObject :=
  [("type", .str "bug"), ("message", .str "x"), ("platform", .str "web"),
    ("app_version", .str "1.0.0")]

/-- Sample report that already carries a retry_count property. -/
def sampleReportWithCount : JSObject :=
  [("type", .str "crash"), ("message", .str "boom"), ("retry_count", .num 7)]

/-- Sample queue entry, as queueReport stores it. -/
def sampleEntry (message : String) (count : Int) : JSObject :=
  [("type", .str "bug"), ("message", .str message), ("platform", .str "web"),
    ("app_version", .str "1.0.0"), ("queued_at", .str "2024-01-01T00:00:00.000Z"),
    ("retry_count", .num count)]

/-- Sample storage: the given queue and an empty history. -/
def sampleStorage (queue : List JSValue) : Storage :=
  { queue := .json (.arr queue), recent := .unset }

/-! ## Sequences of operations -/

/-- An operation on the storage: a call of submitReport, or one tick of the interval, each
with the clock reading and the outcome of its delivery attempt. -/
inductive Op where
  | submit (now : String) (chaosFault : Bool) (out : Outcome) (reportData : JSObject)
  | tick (now : String) (out : Outcome)

/-- Storage after one operation run to its end. -/
def applyOp : Op → Storage → Option Storage
  | .submit now chaosFault out reportData, st =>
    (submitReport now chaosFault out reportData st).map Completion.storage
  | .tick now out, st => (tick now out st).map Completion.storage

/-- Operations applied one after another. -/
def runOps : List Op → Storage → Option Storage
  | [], st => some st
  | op :: rest, st =>
    match applyOp op st with
    | none => none
    | some st1 => runOps rest st1

/-- The delivery attempt succeeds: a 2xx response whose body is an object with a string
report_id. -/
def Outcome.IsSuccess (out : Outcome) : Prop :=
  ∃ body id, out = .json (.obj body) ∧ getProp body "report_id" = some (.str id)

/-- Operations with a clear-cut outcome: a submit of a well-formed report whose delivery
fails, or a tick whose delivery either fails or succeeds. This leaves out, on purpose, a
tick answered by a 2xx response whose body has no string report_id: the callback treats
it in its `catch` block after the head has been shifted out. -/
def Op.ClearOutcome : Op → Prop
  | .submit _ chaosFault out reportData =>
    (chaosFault = true ∨ out.isFailure = true) ∧ IsReport reportData
  | .tick _ out => out.isFailure = true ∨ out.IsSuccess

/-- The entries that the submits of a sequence hand to queueReport, in order. -/
def appendedEntries : List Op → List JSValue
  | [] => []
  | .submit now _ _ reportData :: rest => .obj (queueEntry now reportData) :: appendedEntries rest
  | .tick _ _ :: rest => appendedEntries rest

/-- An entry with its retry_count put back to 0: the entry as it was appended. -/
def resetRetry : JSValue → JSValue
  | .obj o => .obj (setProp o "retry_count" (.num 0))
  | v => v

/-- A queue entry within its retry budget: a well-formed report with a retry_count from 0
to 10. -/
def IsEntry (v : JSValue) : Prop :=
  ∃ o n, v = .obj o ∧ IsReport o ∧ getProp o "retry_count" = some (.num n) ∧ 0 ≤ n ∧ n ≤ 10

/-- The invariant behind FIFO: the stored queue is, up to retry counts, what is left of the
appended entries after dropping the first k, and the history holds well-formed records. -/
structure FifoInv (st : Storage) (appended : List JSValue) (k : Nat) : Prop where
  queue : ∃ q, getQueue st = .ok (.arr q) ∧ (∀ e ∈ q, IsEntry e) ∧
    q.map resetRetry = appended.drop k
  recent : ∃ recs, getRecent st = .ok (.arr recs) ∧ ∀ r ∈ recs, IsRecord r
  bound : k ≤ appended.length

/-- Sample run: two submits that fail, then a tick that fails. -/
def sampleOps : List Op :=
  [.submit "t1" false .networkFault sampleReport,
    .submit "t2" true .networkFault sampleReportWithCount,
    .tick "t3" (.httpError 500)]

/-- Sample continuation: a tick that delivers the head. -/
def sampleMore : List Op :=
  [.tick "t4" (.json (.obj [("report_id", .str "r-9")]))]

/-! ## Sequences of recorded deliveries -/

/-- The arguments of one call of addToRecent, with its clock reading. -/
structure Delivery where
  now : String
  reportData : JSObject
  reportId : Option JSValue

/-- The record that addToRecent makes of a delivery. -/
def Delivery.record (d : Delivery) : JSValue :=
  .obj (recentRecord d.now d.reportData d.reportId)

/-- Calls of addToRecent one after another. The list is saved before it is displayed, so
a call that ends in an exception of displayRecent has stored its record all the same. -/
def recordAll : List Delivery → Storage → Option Storage
  | [], st => some st
  | d :: rest, st =>
    match addToRecent d.now d.reportData d.reportId st with
    | none => none
    | some c => recordAll rest c.storage

/-- Neither the type nor the message of the report is an array or object. -/
def PlainReport (o : JSObject) : Prop :=
  isPlain (getProp o "type") = true ∧ isPlain (getProp o "message") = true

/-- Sample deliveries, numbered by their message. -/
def sampleDelivery (n : Nat) : Delivery :=
  { now := "t", reportData := [("type", .str "bug"), ("message", .num n)],
    reportId := some (.num n) }

/-! ## Corrupt storage -/

/-- The text under a key cannot be read as a list: it is not valid JSON, or it is valid JSON
for something other than an array. -/
def NotAList : Stored → Prop
  | .malformed => True
  | .json (.arr _) => False
  | .json _ => True
  | _ => False

/-! ## The event loop -/

/-- The storage together with the delivery attempts that ticks have issued and that have
not resolved yet, oldest first; each is a callback suspended at its `await`, holding its
locals. -/
structure Sys where
  store : Storage
  pending : List TickLocals

/-- What the event loop can run next. -/
inductive Event where
  /-- The interval fires: a new callback runs up to its `await`. -/
  | timer
  /-- The attempt of the suspended callback at index i resolves and the callback runs to
  its end. -/
  | response (i : Nat) (now : String) (out : Outcome)
  /-- The delivery attempt of a submitReport call resolves and the call runs to its end;
  before that point the call has not read or written the storage. -/
  | submit (now : String) (chaosFault : Bool) (out : Outcome) (reportData : JSObject)

/-- One turn of the event loop; `none` when the event cannot happen (no such suspended
callback) or leaves the modelled fragment. -/
def step : Event → Sys → Option Sys
  | .timer, s =>
    match tickStart s.store with
    | none => none
    | some .idle => some s
    | some (.threw _) => some s
    | some (.request _ l) => some { s with pending := s.pending ++ [l] }
  | .response i now out, s =>
    match s.pending.get? i with
    | none => none
    | some l =>
      match tickResume now out l s.store with
      | none => none
      | some c => some { store := c.storage, pending := s.pending.eraseIdx i }
  | .submit now chaosFault out reportData, s =>
    match submitReport now chaosFault out reportData s.store with
    | none => none
    | some c => some { s with store := c.storage }

/-- Turns of the event loop one after another. -/
def runEvents : List Event → Sys → Option Sys
  | [], s => some s
  | ev :: rest, s =>
    match step ev s with
    | none => none
    | some s1 => runEvents rest s1

/-- A schedule in which the interval never fires while an attempt of an earlier tick is
still outstanding: every response arrives within the 5 seconds. -/
def Serial : List Event → Sys → Prop
  | [], _ => True
  | .timer :: rest, s =>
    s.pending = [] ∧
      match step .timer s with
      | none => True
      | some s1 => Serial rest s1
  | ev :: rest, s =>
    match step ev s with
    | none => True
    | some s1 => Serial rest s1

/-- At most one attempt of a tick is outstanding, and it is for the entry that is the head
of the stored queue. -/
def SingleFlight (s : Sys) : Prop :=
  s.pending.length ≤ 1 ∧
    ∀ l ∈ s.pending, ∃ t, s.store.queue = .json (.arr (.obj l.item :: t))

/-- Sample system: one entry queued, nothing outstanding. -/
def sampleSys : Sys :=
  { store := sampleStorage [.obj (sampleEntry "a" 0)], pending := [] }

/-- Sample schedule in which every response arrives before the next firing: a tick that
fails while a submit fails, then a tick that delivers. -/
def sampleSchedule : List Event :=
  [.timer, .submit "t1" false .networkFault sampleReport, .response 0 "t2" .networkFault,
    .timer, .response 0 "t3" (.json (.obj [("report_id", .str "r-1")]))]

/-! ## The retry payload and the drain of the queue -/

/-- The property names of the object literal that a retry sends (app.js 331-334), in
order. -/
def payloadKeys : List String :=
  ["type", "message", "platform", "app_version"]

/-- Sample queue entry that was queued with a screenshot. -/
def sampleEntryWithShot : JSObject :=
  [("type", .str "crash"), ("message", .str "boom"), ("platform", .str "ios"),
    ("app_version", .str "1.0.0"), ("screenshot", .str "data:image/png;base64,AAAA"),
    ("queued_at", .str "2024-01-01T00:00:00.000Z"), ("retry_count", .num 2)]

/-- Ticks that an entry can still fail before it is discarded: 11 minus its
retry_count. -/
def retryLeft : JSValue → Nat
  | .obj o =>
    match getProp o "retry_count" with
    | some (.num n) => (11 - n).toNat
    | _ => 0
  | _ => 0

/-- Ticks that a queue can still take before it is empty: the sum over its entries. -/
def drainBudget (q : List JSValue) : Nat :=
  (q.map retryLeft).sum

/-! ## Properties of objects -/

theorem getProp_setProp_same (o : JSObject) (k : String) (v : JSValue) :
    getProp (setProp o k v) k = some v := by
  induction o with
  | nil => simp [setProp, getProp]
  | cons p rest ih =>
    obtain ⟨k', v'⟩ := p
    by_cases h : k' = k
    · simp [setProp, getProp, h]
    · simp [setProp, getProp, h, ih]

theorem getProp_setProp_other (o : JSObject) (k k' : String) (v : JSValue) (h : k' ≠ k) :
    getProp (setProp o k v) k' = getProp o k' := by
  induction o with
  | nil => simp [setProp, getProp, Ne.symm h]
  | cons p rest ih =>
    obtain ⟨k1, v1⟩ := p
    by_cases h1 : k1 = k
    · subst h1
      simp [setProp, getProp, Ne.symm h]
    · by_cases h2 : k1 = k'
      · subst h2
        simp [setProp, getProp, h1]
      · simp [setProp, getProp, h1, h2, ih]

theorem setProp_setProp_same (o : JSObject) (k : String) (v w : JSValue) :
    setProp (setProp o k v) k w = setProp o k w := by
  induction o with
  | nil => simp [setProp]
  | cons p rest ih =>
    obtain ⟨k', v'⟩ := p
    by_cases h : k' = k
    · simp [setProp, h]
    · simp [setProp, h, ih]

theorem setProp_of_getProp (o : JSObject) (k : String) (v : JSValue)
    (h : getProp o k = some v) : setProp o k v = o := by
  induction o with
  | nil => simp [getProp] at h
  | cons p rest ih =>
    obtain ⟨k', v'⟩ := p
    by_cases hk : k' = k
    · subst hk
      simp [getProp] at h
      simp [setProp, h]
    · simp [getProp, hk] at h
      simp [setProp, hk, ih h]

theorem setProp_keys (o : JSObject) (k : String) (v w : JSValue)
    (h : getProp o k = some w) : (setProp o k v).map Prod.fst = o.map Prod.fst := by
  induction o with
  | nil => simp [getProp] at h
  | cons p rest ih =>
    obtain ⟨k', v'⟩ := p
    by_cases hk : k' = k
    · subst hk
      simp [setProp]
    · simp only [getProp, hk, if_false] at h
      simp [setProp, hk, ih h]

theorem queueEntry_retry_count (now : String) (R : JSObject) :
    getProp (queueEntry now R) "retry_count" = some (.num 0) := by
  unfold queueEntry
  exact getProp_setProp_same _ _ _

theorem queueEntry_queued_at (now : String) (R : JSObject) :
    getProp (queueEntry now R) "queued_at" = some (.str now) := by
  unfold queueEntry
  rw [getProp_setProp_other _ _ _ _ (by decide)]
  exact getProp_setProp_same _ _ _

theorem queueEntry_other (now : String) (R : JSObject) (k : String)
    (h1 : k ≠ "retry_count") (h2 : k ≠ "queued_at") :
    getProp (queueEntry now R) k = getProp R k := by
  unfold queueEntry
  rw [getProp_setProp_other _ _ _ _ h1, getProp_setProp_other _ _ _ _ h2]

/-! ## Submitting -/

theorem getQueue_arr_cases (st : Storage) (Q : List JSValue)
    (h : getQueue st = .ok (.arr Q)) :
    st.queue = .json (.arr Q) ∨ (Q = [] ∧ (st.queue = .unset ∨ st.queue = .emptyText)) := by
  unfold getQueue at h
  cases hq : st.queue with
  | unset =>
    rw [hq] at h
    simp only [parseOrEmpty, Except.ok.injEq, JSValue.arr.injEq] at h
    exact Or.inr ⟨h.symm, Or.inl rfl⟩
  | emptyText =>
    rw [hq] at h
    simp only [parseOrEmpty, Except.ok.injEq, JSValue.arr.injEq] at h
    exact Or.inr ⟨h.symm, Or.inr rfl⟩
  | malformed =>
    rw [hq] at h
    simp [parseOrEmpty] at h
  | json v =>
    rw [hq] at h
    simp only [parseOrEmpty, Except.ok.injEq] at h
    exact Or.inl (by rw [h])

theorem queueReport_arr (now : String) (R : JSObject) (st : Storage) (Q : List JSValue)
    (h : getQueue st = .ok (.arr Q)) :
    queueReport now R st = .returned (saveQueue (Q ++ [.obj (queueEntry now R)]) st) := by
  unfold queueReport
  rw [h]

theorem submitTry_failure (now : String) (chaosFault : Bool) (out : Outcome) (R : JSObject)
    (st : Storage) (hfail : chaosFault = true ∨ out.isFailure = true) :
    ∃ e, submitTry now chaosFault out R st = some (.threw e st) := by
  unfold submitTry
  cases chaosFault with
  | true => exact ⟨_, rfl⟩
  | false =>
    rcases hfail with h | h
    · cases h
    · cases out with
      | networkFault => exact ⟨_, rfl⟩
      | httpError s => exact ⟨_, rfl⟩
      | bodyNotJson => exact ⟨_, rfl⟩
      | json v => simp [Outcome.isFailure] at h

/-- C1: when the delivery attempt of submitReport fails (simulated fault, network fault,
non-2xx status or unreadable body) and the stored queue is Q, submitReport returns and the
stored queue is Q with one entry appended at the tail: its length is one more, its first
entries are those of Q, and the last entry has retry_count 0, queued_at set to the clock
reading and every other property as in the report (a retry_count of the report is
overwritten); the recent-history key is untouched. -/
theorem submitReport_failure_appends (now : String) (chaosFault : Bool) (out : Outcome)
    (R : JSObject) (st : Storage) (Q : List JSValue)
    (hQ : getQueue st = .ok (.arr Q))
    (hfail : chaosFault = true ∨ out.isFailure = true) :
    ∃ st' Q' e, submitReport now chaosFault out R st = some (.returned st') ∧
      st'.queue = .json (.arr Q') ∧
      Q' = Q ++ [.obj e] ∧
      Q'.length = Q.length + 1 ∧
      Q'.take Q.length = Q ∧
      Q'.getLast? = some (.obj e) ∧
      getProp e "retry_count" = some (.num 0) ∧
      getProp e "queued_at" = some (.str now) ∧
      (∀ k, k ≠ "retry_count" → k ≠ "queued_at" → getProp e k = getProp R k) ∧
      st'.recent = st.recent := by
  obtain ⟨err, htry⟩ := submitTry_failure now chaosFault out R st hfail
  refine ⟨saveQueue (Q ++ [JSValue.obj (queueEntry now R)]) st,
    Q ++ [JSValue.obj (queueEntry now R)],
    queueEntry now R, ?_, rfl, rfl, by simp, by simp, by simp, queueEntry_retry_count now R,
    queueEntry_queued_at now R, fun k h1 h2 => queueEntry_other now R k h1 h2, rfl⟩
  unfold submitReport
  rw [htry]
  simp only [queueReport_arr now R st Q hQ]

/-- C1 at a concrete input: a report that carries retry_count 7 is submitted while one entry
is queued and the network is down. -/
theorem submitReport_failure_appends_witness :
    getQueue (sampleStorage [.obj (sampleEntry "a" 3)]) = .ok (.arr [.obj (sampleEntry "a" 3)]) ∧
    (false = true ∨ Outcome.networkFault.isFailure = true) ∧
    ∃ st' Q' e, submitReport "t1" false .networkFault sampleReportWithCount
        (sampleStorage [.obj (sampleEntry "a" 3)]) = some (.returned st') ∧
      st'.queue = .json (.arr Q') ∧
      Q' = [.obj (sampleEntry "a" 3)] ++ [.obj e] ∧
      Q'.length = [JSValue.obj (sampleEntry "a" 3)].length + 1 ∧
      Q'.take [JSValue.obj (sampleEntry "a" 3)].length = [.obj (sampleEntry "a" 3)] ∧
      Q'.getLast? = some (.obj e) ∧
      getProp e "retry_count" = some (.num 0) ∧
      getProp e "queued_at" = some (.str "t1") ∧
      (∀ k, k ≠ "retry_count" → k ≠ "queued_at" →
        getProp e k = getProp sampleReportWithCount k) ∧
      st'.recent = (sampleStorage [.obj (sampleEntry "a" 3)]).recent :=
  ⟨rfl, Or.inr rfl,
    submitReport_failure_appends "t1" false .networkFault sampleReportWithCount
      (sampleStorage [.obj (sampleEntry "a" 3)]) [.obj (sampleEntry "a" 3)] rfl (Or.inr rfl)⟩

/-! ## Recording a delivery -/

theorem displayItems_of_records (items : List JSValue) (h : ∀ r ∈ items, IsRecord r) :
    displayItems items = some (.ok ()) := by
  induction items with
  | nil => rfl
  | cons r rest ih =>
    obtain ⟨props, hr, ⟨⟨s, hs⟩, hty⟩, hts⟩ := h r (List.mem_cons_self _ _)
    subst hr
    have hd : displayItem (.obj props) = some (.ok ()) := by
      simp only [displayItem, hty, hs, truncate, hts, if_true]
    simp only [displayItems, hd]
    exact ih (fun x hx => h x (List.mem_cons_of_mem _ hx))

theorem popIfOver_mem (recent : List JSValue) (x : JSValue) (h : x ∈ popIfOver recent) :
    x ∈ recent := by
  unfold popIfOver at h
  split at h
  · exact List.mem_of_mem_dropLast h
  · exact h

theorem recentRecord_id (now : String) (R : JSObject) (id : JSValue) :
    getProp (recentRecord now R (some id)) "id" = some id := by
  simp [recentRecord, definedProps, getProp]

theorem recentRecord_type (now : String) (R : JSObject) (id : Option JSValue) :
    getProp (recentRecord now R id) "type" = getProp R "type" := by
  cases id <;> cases ht : getProp R "type" <;> cases hm : getProp R "message" <;>
    simp [recentRecord, definedProps, getProp, ht, hm]

theorem recentRecord_message (now : String) (R : JSObject) (id : Option JSValue) :
    getProp (recentRecord now R id) "message" = getProp R "message" := by
  cases id <;> cases ht : getProp R "type" <;> cases hm : getProp R "message" <;>
    simp [recentRecord, definedProps, getProp, ht, hm]

theorem recentRecord_timestamp (now : String) (R : JSObject) (id : Option JSValue) :
    getProp (recentRecord now R id) "timestamp" = some (.str now) := by
  cases id <;> cases ht : getProp R "type" <;> cases hm : getProp R "message" <;>
    simp [recentRecord, definedProps, getProp, ht, hm]

theorem recentRecord_isRecord (now : String) (R : JSObject) (id : Option JSValue)
    (h : IsReport R) : IsRecord (.obj (recentRecord now R id)) := by
  obtain ⟨⟨s, hs⟩, hty⟩ := h
  exact ⟨_, rfl, ⟨⟨s, by rw [recentRecord_message, hs]⟩, by rw [recentRecord_type, hty]⟩,
    by rw [recentRecord_timestamp]; rfl⟩

theorem addToRecent_records (now : String) (R : JSObject) (id : Option JSValue)
    (st : Storage) (recs : List JSValue) (hrec : getRecent st = .ok (.arr recs))
    (hmsg : IsReport R) (hrecs : ∀ r ∈ recs, IsRecord r) :
    addToRecent now R id st =
      some (.returned (saveRecent (popIfOver (.obj (recentRecord now R id) :: recs)) st)) := by
  unfold addToRecent
  rw [hrec]
  have hall : ∀ r ∈ popIfOver (.obj (recentRecord now R id) :: recs), IsRecord r := by
    intro r hr
    rcases List.mem_cons.mp (popIfOver_mem _ _ hr) with h | h
    · rw [h]; exact recentRecord_isRecord now R id hmsg
    · exact hrecs r h
  have hd : displayRecent
      (saveRecent (popIfOver (.obj (recentRecord now R id) :: recs)) st) = some (.ok ()) := by
    simp only [displayRecent, getRecent, saveRecent, parseOrEmpty]
    exact displayItems_of_records _ hall
  simp only [hd]

theorem popIfOver_cons (r : JSValue) (recs : List JSValue) :
    popIfOver (r :: recs) = r :: (if recs.length < 5 then recs else recs.dropLast) := by
  unfold popIfOver
  by_cases h : recs.length < 5
  · have h5 : ¬ (r :: recs).length > 5 := by simp only [List.length_cons]; omega
    simp only [h5, h, if_true, if_false]
  · have h5 : (r :: recs).length > 5 := by simp only [List.length_cons]; omega
    have hne : recs ≠ [] := by
      intro he; rw [he] at h; simp at h
    obtain ⟨y, ys, hy⟩ := List.exists_cons_of_ne_nil hne
    subst hy
    simp only [h5, h, if_true, if_false, List.dropLast_cons₂]

/-- C2: when the delivery attempt of submitReport gets a 2xx response whose JSON body is an
object carrying report_id (and a category that is not an array or object), then, for a
well-formed report and a stored history of well-formed records, submitReport returns, the
queue key is left exactly as it was, and the history becomes a new record followed by the
old records (without the last one when there were already five); the new record has the
collector's report_id as id, the type and message of the report and the clock reading as
timestamp. -/
theorem submitReport_success_records (now : String) (R : JSObject) (st : Storage)
    (body : JSObject) (id : JSValue) (recs : List JSValue)
    (hid : getProp body "report_id" = some id)
    (hcat : isPlain (getProp body "category") = true)
    (hrec : getRecent st = .ok (.arr recs))
    (hmsg : IsReport R) (hrecs : ∀ r ∈ recs, IsRecord r) :
    ∃ st' rec, submitReport now false (.json (.obj body)) R st = some (.returned st') ∧
      st'.queue = st.queue ∧
      st'.recent =
        .json (.arr (.obj rec :: (if recs.length < 5 then recs else recs.dropLast))) ∧
      getProp rec "id" = some id ∧
      getProp rec "type" = getProp R "type" ∧
      getProp rec "message" = getProp R "message" ∧
      getProp rec "timestamp" = some (.str now) := by
  refine ⟨saveRecent (popIfOver (.obj (recentRecord now R (some id)) :: recs)) st,
    recentRecord now R (some id), ?_, rfl, ?_, recentRecord_id now R id,
    recentRecord_type now R _, recentRecord_message now R _, recentRecord_timestamp now R _⟩
  · have hadd := addToRecent_records now R (some id) st recs hrec hmsg hrecs
    have hstat : sentStatus (.obj body) = some () := by
      simp only [sentStatus, resultProp, hcat, Bool.not_true, Bool.and_false,
        Bool.false_eq_true, if_false]
    simp only [submitReport, submitTry, resultProp, hstat, hid, hadd, Bool.false_eq_true,
      if_false]
  · simp only [saveRecent, popIfOver_cons]

/-- C2 at a concrete input: the sample report is delivered while one entry is queued and
the history is empty. -/
theorem submitReport_success_records_witness :
    getProp [("report_id", JSValue.str "r-1")] "report_id" = some (.str "r-1") ∧
    isPlain (getProp [("report_id", JSValue.str "r-1")] "category") = true ∧
    getRecent (sampleStorage [.obj (sampleEntry "a" 3)]) = .ok (.arr []) ∧
    IsReport sampleReport ∧ (∀ r ∈ ([] : List JSValue), IsRecord r) ∧
    ∃ st' rec, submitReport "t1" false (.json (.obj [("report_id", .str "r-1")])) sampleReport
        (sampleStorage [.obj (sampleEntry "a" 3)]) = some (.returned st') ∧
      st'.queue = (sampleStorage [.obj (sampleEntry "a" 3)]).queue ∧
      st'.recent = .json (.arr (.obj rec ::
        (if ([] : List JSValue).length < 5 then [] else ([] : List JSValue).dropLast))) ∧
      getProp rec "id" = some (.str "r-1") ∧
      getProp rec "type" = getProp sampleReport "type" ∧
      getProp rec "message" = getProp sampleReport "message" ∧
      getProp rec "timestamp" = some (.str "t1") :=
  ⟨rfl, rfl, rfl, ⟨⟨"x", rfl⟩, rfl⟩, fun _ h => absurd h (List.not_mem_nil _),
    submitReport_success_records "t1" sampleReport (sampleStorage [.obj (sampleEntry "a" 3)])
      [("report_id", .str "r-1")] (.str "r-1") [] rfl rfl rfl ⟨⟨"x", rfl⟩, rfl⟩
      (fun _ h => absurd h (List.not_mem_nil _))⟩

/-! ## Ticks -/

theorem tickStart_head (st : Storage) (h : JSObject) (t : List JSValue)
    (hq : st.queue = .json (.arr (.obj h :: t))) :
    tickStart st = some (.request (retryPayload h) { queue := .obj h :: t, item := h }) := by
  simp only [tickStart, getQueue, hq, parseOrEmpty]

theorem tick_success (now : String) (h : JSObject) (t : List JSValue)
    (st : Storage) (body : JSObject) (id : String) (recs : List JSValue)
    (hq : st.queue = .json (.arr (.obj h :: t)))
    (hid : getProp body "report_id" = some (.str id))
    (hrec : getRecent st = .ok (.arr recs))
    (hmsg : IsReport h) (hrecs : ∀ r ∈ recs, IsRecord r) :
    tick now (.json (.obj body)) st = some (.returned (saveRecent
      (popIfOver (.obj (recentRecord now h (some (.str id))) :: recs)) (saveQueue t st))) := by
  have hadd := addToRecent_records now h (some (.str id)) (saveQueue t st) recs hrec
    hmsg hrecs
  simp only [tick, tickStart_head st h t hq, tickResume, tickTry, reportIdString, hid,
    List.tail_cons, hadd]

/-- C3: for a stored queue h :: t, a tick whose delivery attempt gets a 2xx response
carrying the string report_id (for a well-formed head and a stored history of well-formed
records) returns, leaves the stored queue equal to t, and puts in front of the history a
record with that id, the type and message of h and the clock reading as timestamp. -/
theorem tick_success_delivers (now : String) (h : JSObject) (t : List JSValue)
    (st : Storage) (body : JSObject) (id : String) (recs : List JSValue)
    (hq : st.queue = .json (.arr (.obj h :: t)))
    (hid : getProp body "report_id" = some (.str id))
    (hrec : getRecent st = .ok (.arr recs))
    (hmsg : IsReport h) (hrecs : ∀ r ∈ recs, IsRecord r) :
    ∃ st' rec, tick now (.json (.obj body)) st = some (.returned st') ∧
      st'.queue = .json (.arr t) ∧
      st'.recent =
        .json (.arr (.obj rec :: (if recs.length < 5 then recs else recs.dropLast))) ∧
      getProp rec "id" = some (.str id) ∧
      getProp rec "type" = getProp h "type" ∧
      getProp rec "message" = getProp h "message" ∧
      getProp rec "timestamp" = some (.str now) := by
  refine ⟨saveRecent (popIfOver (.obj (recentRecord now h (some (.str id))) :: recs))
      (saveQueue t st),
    recentRecord now h (some (.str id)), ?_, rfl, ?_, recentRecord_id now h _,
    recentRecord_type now h _, recentRecord_message now h _, recentRecord_timestamp now h _⟩
  · exact tick_success now h t st body id recs hq hid hrec hmsg hrecs
  · simp only [saveRecent, popIfOver_cons]

/-- C3 at a concrete input: two entries are queued and the head is delivered. -/
theorem tick_success_delivers_witness :
    (sampleStorage [.obj (sampleEntry "a" 3), .obj (sampleEntry "b" 0)]).queue =
      .json (.arr (.obj (sampleEntry "a" 3) :: [.obj (sampleEntry "b" 0)])) ∧
    getProp [("report_id", JSValue.str "r-2")] "report_id" = some (.str "r-2") ∧
    getRecent (sampleStorage [.obj (sampleEntry "a" 3), .obj (sampleEntry "b" 0)]) =
      .ok (.arr []) ∧
    IsReport (sampleEntry "a" 3) ∧ (∀ r ∈ ([] : List JSValue), IsRecord r) ∧
    ∃ st' rec, tick "t2" (.json (.obj [("report_id", .str "r-2")]))
        (sampleStorage [.obj (sampleEntry "a" 3), .obj (sampleEntry "b" 0)]) =
          some (.returned st') ∧
      st'.queue = .json (.arr [.obj (sampleEntry "b" 0)]) ∧
      st'.recent = .json (.arr (.obj rec ::
        (if ([] : List JSValue).length < 5 then [] else ([] : List JSValue).dropLast))) ∧
      getProp rec "id" = some (.str "r-2") ∧
      getProp rec "type" = getProp (sampleEntry "a" 3) "type" ∧
      getProp rec "message" = getProp (sampleEntry "a" 3) "message" ∧
      getProp rec "timestamp" = some (.str "t2") :=
  ⟨rfl, rfl, rfl, ⟨⟨"a", rfl⟩, rfl⟩, fun _ h => absurd h (List.not_mem_nil _),
    tick_success_delivers "t2" (sampleEntry "a" 3) [.obj (sampleEntry "b" 0)]
      (sampleStorage [.obj (sampleEntry "a" 3), .obj (sampleEntry "b" 0)])
      [("report_id", .str "r-2")] "r-2" [] rfl rfl rfl ⟨⟨"a", rfl⟩, rfl⟩
      (fun _ h => absurd h (List.not_mem_nil _))⟩

theorem nextRetryCount_num (n : Int) (h0 : 0 ≤ n) (h1 : n ≤ 10) :
    nextRetryCount (some (.num n)) = some (n + 1) := by
  have hlt : n.natAbs < 2 ^ 53 := by omega
  simp only [nextRetryCount, hlt, if_true]

theorem tick_failure (now : String) (out : Outcome) (h : JSObject) (t : List JSValue)
    (st : Storage) (n : Int)
    (hq : st.queue = .json (.arr (.obj h :: t)))
    (hrc : getProp h "retry_count" = some (.num n)) (h0 : 0 ≤ n) (h1 : n ≤ 10)
    (hf : out.isFailure = true) :
    tick now out st = some (.returned (saveQueue
      (if n + 1 > 10 then t else .obj (setProp h "retry_count" (.num (n + 1))) :: t) st)) := by
  have hcatch : tickCatch { queue := .obj h :: t, item := h } (.obj h :: t) st =
      some (.returned (saveQueue
        (if n + 1 > 10 then t else .obj (setProp h "retry_count" (.num (n + 1))) :: t)
        st)) := by
    simp only [tickCatch, hrc, nextRetryCount_num n h0 h1, setFirst, List.tail_cons]
    split <;> rfl
  cases out with
  | networkFault => simp only [tick, tickStart_head st h t hq, tickResume, tickTry, hcatch]
  | httpError s => simp only [tick, tickStart_head st h t hq, tickResume, tickTry, hcatch]
  | bodyNotJson => simp only [tick, tickStart_head st h t hq, tickResume, tickTry, hcatch]
  | json v => simp [Outcome.isFailure] at hf

/-- C4: for a stored queue h :: t whose head has a retry_count from 0 to 9, a tick whose
delivery attempt fails returns and leaves the stored queue equal to h2 :: t where h2 is h
with retry_count one higher: every other property of the head (queued_at, type, message,
platform, app_version, screenshot) reads as before, t is unchanged, the length is
unchanged, and the history key is untouched. -/
theorem tick_failure_increments (now : String) (out : Outcome) (h : JSObject)
    (t : List JSValue) (st : Storage) (n : Int)
    (hq : st.queue = .json (.arr (.obj h :: t)))
    (hrc : getProp h "retry_count" = some (.num n)) (h0 : 0 ≤ n) (h1 : n < 10)
    (hf : out.isFailure = true) :
    ∃ st' h2, tick now out st = some (.returned st') ∧
      st'.queue = .json (.arr (.obj h2 :: t)) ∧
      h2 = setProp h "retry_count" (.num (n + 1)) ∧
      getProp h2 "retry_count" = some (.num (n + 1)) ∧
      (∀ k, k ≠ "retry_count" → getProp h2 k = getProp h k) ∧
      h2.map Prod.fst = h.map Prod.fst ∧
      (JSValue.obj h2 :: t).length = (JSValue.obj h :: t).length ∧
      st'.recent = st.recent := by
  refine ⟨saveQueue (.obj (setProp h "retry_count" (.num (n + 1))) :: t) st,
    setProp h "retry_count" (.num (n + 1)), ?_, rfl, rfl, getProp_setProp_same _ _ _,
    fun k hk => getProp_setProp_other _ _ _ _ hk, ?_, rfl, rfl⟩
  · rw [tick_failure now out h t st n hq hrc h0 (by omega) hf]
    have : ¬ (n + 1 > 10) := by omega
    simp only [this, if_false]
  · exact setProp_keys h "retry_count" _ _ hrc

/-- C4 at a concrete input: a head that has failed three times fails once more. -/
theorem tick_failure_increments_witness :
    (sampleStorage [.obj (sampleEntry "a" 3), .obj (sampleEntry "b" 0)]).queue =
      .json (.arr (.obj (sampleEntry "a" 3) :: [.obj (sampleEntry "b" 0)])) ∧
    getProp (sampleEntry "a" 3) "retry_count" = some (.num 3) ∧
    (0 : Int) ≤ 3 ∧ (3 : Int) < 10 ∧ (Outcome.httpError 503).isFailure = true ∧
    ∃ st' h2, tick "t3" (.httpError 503)
        (sampleStorage [.obj (sampleEntry "a" 3), .obj (sampleEntry "b" 0)]) =
          some (.returned st') ∧
      st'.queue = .json (.arr (.obj h2 :: [.obj (sampleEntry "b" 0)])) ∧
      h2 = setProp (sampleEntry "a" 3) "retry_count" (.num (3 + 1)) ∧
      getProp h2 "retry_count" = some (.num (3 + 1)) ∧
      (∀ k, k ≠ "retry_count" → getProp h2 k = getProp (sampleEntry "a" 3) k) ∧
      h2.map Prod.fst = (sampleEntry "a" 3).map Prod.fst ∧
      (JSValue.obj h2 :: [.obj (sampleEntry "b" 0)]).length =
        (JSValue.obj (sampleEntry "a" 3) :: [.obj (sampleEntry "b" 0)]).length ∧
      st'.recent = (sampleStorage [.obj (sampleEntry "a" 3), .obj (sampleEntry "b" 0)]).recent :=
  ⟨rfl, rfl, by decide, by decide, rfl,
    tick_failure_increments "t3" (.httpError 503) (sampleEntry "a" 3)
      [.obj (sampleEntry "b" 0)]
      (sampleStorage [.obj (sampleEntry "a" 3), .obj (sampleEntry "b" 0)]) 3 rfl rfl
      (by decide) (by decide) rfl⟩

/-! ## The retry budget -/

theorem saveQueue_self (st : Storage) (q : List JSValue) (h : st.queue = .json (.arr q)) :
    saveQueue q st = st := by
  cases st
  simp only [saveQueue] at *
  simp [h]

theorem saveQueue_saveQueue (st : Storage) (q r : List JSValue) :
    saveQueue r (saveQueue q st) = saveQueue r st := rfl

theorem runTicks_append (a b : List (String × Outcome)) (st : Storage) :
    runTicks (a ++ b) st = (runTicks a st).bind (runTicks b) := by
  induction a generalizing st with
  | nil => rfl
  | cons p rest ih =>
    obtain ⟨now, out⟩ := p
    simp only [List.cons_append, runTicks]
    cases tick now out st with
    | none => rfl
    | some c => exact ih c.storage

theorem runTicks_failures (t : List JSValue) (fails : List (String × Outcome)) :
    ∀ (E : JSObject) (n : Int) (st : Storage),
      st.queue = .json (.arr (.obj E :: t)) →
      getProp E "retry_count" = some (.num n) → 0 ≤ n → n + fails.length ≤ 10 →
      (∀ p ∈ fails, p.2.isFailure = true) →
      runTicks fails st = some (saveQueue
        (.obj (setProp E "retry_count" (.num (n + fails.length))) :: t) st) := by
  induction fails with
  | nil =>
    intro E n st hq hrc _ _ _
    simp only [runTicks, List.length_nil, Nat.cast_zero, add_zero]
    rw [setProp_of_getProp E _ _ hrc, saveQueue_self st _ hq]
  | cons p rest ih =>
    intro E n st hq hrc h0 hlen hall
    obtain ⟨now, out⟩ := p
    have hf : out.isFailure = true := hall (now, out) (List.mem_cons_self _ _)
    simp only [List.length_cons, Nat.cast_add, Nat.cast_one] at hlen
    have hstep := tick_failure now out E t st n hq hrc h0 (by omega) hf
    have hnot : ¬ (n + 1 > 10) := by omega
    simp only [hnot, if_false] at hstep
    simp only [runTicks, hstep, Completion.storage]
    rw [ih (setProp E "retry_count" (.num (n + 1))) (n + 1)
      (saveQueue (.obj (setProp E "retry_count" (.num (n + 1))) :: t) st) rfl
      (getProp_setProp_same _ _ _) (by omega) (by omega)
      (fun q hq' => hall q (List.mem_cons_of_mem _ hq'))]
    simp only [setProp_setProp_same, saveQueue_saveQueue, List.length_cons, Nat.cast_add,
      Nat.cast_one]
    congr 6
    omega

theorem runTicks_exhaust (t : List JSValue) (E : JSObject) (st : Storage)
    (fails : List (String × Outcome))
    (hq : st.queue = .json (.arr (.obj E :: t)))
    (hrc : getProp E "retry_count" = some (.num 0))
    (hall : ∀ p ∈ fails, p.2.isFailure = true) (hlen : fails.length = 11) :
    runTicks fails st = some (saveQueue t st) := by
  have hsplit : fails = fails.take 10 ++ fails.drop 10 := (List.take_append_drop 10 fails).symm
  have hl1 : (fails.take 10).length = 10 := by simp [hlen]
  have hl2 : (fails.drop 10).length = 1 := by simp [hlen]
  obtain ⟨p, hp⟩ := List.length_eq_one.mp hl2
  have hmem : p ∈ fails := by
    have : p ∈ fails.drop 10 := by rw [hp]; exact List.mem_singleton_self p
    exact List.mem_of_mem_drop this
  rw [hsplit, runTicks_append,
    runTicks_failures t (fails.take 10) E 0 st hq hrc (le_refl _) (by rw [hl1]; norm_num)
      (fun q hq' => hall q (List.mem_of_mem_take hq'))]
  rw [hp, hl1]
  obtain ⟨now, out⟩ := p
  have hstep := tick_failure now out (setProp E "retry_count" (.num (0 + (10 : Nat)))) t
    (saveQueue (.obj (setProp E "retry_count" (.num (0 + (10 : Nat)))) :: t) st) 10 rfl
    (by rw [getProp_setProp_same]; norm_num) (by norm_num) (le_refl _) (hall _ hmem)
  simp only [Option.some_bind, runTicks, hstep, Completion.storage]
  rfl

/-- C5: an entry E with retry_count 0 at the head of the queue, with every delivery attempt
failing: after k ticks, 1 to 10, E is still the head with retry_count k and the rest of
the queue and the history are as before; after the 11th tick the queue is the rest alone,
the history is still as before (no record was made for E), and whatever the later ticks
get as outcomes, success included, they run exactly as on the queue without E. -/
theorem retry_budget_discards (E : JSObject) (t : List JSValue) (st : Storage)
    (fails : List (String × Outcome))
    (hq : st.queue = .json (.arr (.obj E :: t)))
    (hrc : getProp E "retry_count" = some (.num 0))
    (hall : ∀ p ∈ fails, p.2.isFailure = true) :
    (1 ≤ fails.length → fails.length ≤ 10 →
      ∃ st', runTicks fails st = some st' ∧
        st'.queue =
          .json (.arr (.obj (setProp E "retry_count" (.num fails.length)) :: t)) ∧
        getProp (setProp E "retry_count" (.num fails.length)) "retry_count" =
          some (.num fails.length) ∧
        st'.recent = st.recent) ∧
    (fails.length = 11 →
      ∃ st', runTicks fails st = some st' ∧ st'.queue = .json (.arr t) ∧
        st'.recent = st.recent ∧
        ∀ later, runTicks (fails ++ later) st =
          runTicks later { queue := .json (.arr t), recent := st.recent }) := by
  constructor
  · intro _ h10
    refine ⟨_, runTicks_failures t fails E 0 st hq hrc (le_refl _) (by omega) hall, ?_,
      getProp_setProp_same _ _ _, rfl⟩
    simp only [saveQueue, zero_add]
  · intro h11
    have hrun := runTicks_exhaust t E st fails hq hrc hall h11
    refine ⟨_, hrun, rfl, rfl, ?_⟩
    intro later
    rw [runTicks_append, hrun]
    rfl

/-- C5 at a concrete input, the scenario of the specification: one queued entry and a
network that stays down; after 3 ticks the count is 3, after 11 the queue is empty. -/
theorem retry_budget_discards_witness :
    (∃ st', runTicks (List.replicate 3 ("t", Outcome.networkFault))
        (sampleStorage [.obj (sampleEntry "x" 0)]) = some st' ∧
      st'.queue = .json (.arr [.obj (sampleEntry "x" 3)])) ∧
    (∃ st', runTicks (List.replicate 11 ("t", Outcome.networkFault))
        (sampleStorage [.obj (sampleEntry "x" 0)]) = some st' ∧
      st'.queue = .json (.arr []) ∧ st'.recent = .unset) := by
  constructor
  · obtain ⟨st', h1, h2, _⟩ := (retry_budget_discards (sampleEntry "x" 0) []
      (sampleStorage [.obj (sampleEntry "x" 0)]) (List.replicate 3 ("t", .networkFault))
      rfl rfl (fun p hp => by rw [List.eq_of_mem_replicate hp]; rfl)).1
      (by simp) (by simp)
    exact ⟨st', h1, h2⟩
  · obtain ⟨st', h1, h2, h3, _⟩ := (retry_budget_discards (sampleEntry "x" 0) []
      (sampleStorage [.obj (sampleEntry "x" 0)]) (List.replicate 11 ("t", .networkFault))
      rfl rfl (fun p hp => by rw [List.eq_of_mem_replicate hp]; rfl)).2 (by simp)
    exact ⟨st', h1, h2, h3⟩

/-! ## FIFO -/

theorem runOps_append (a b : List Op) (st : Storage) :
    runOps (a ++ b) st = (runOps a st).bind (runOps b) := by
  induction a generalizing st with
  | nil => rfl
  | cons op rest ih =>
    simp only [List.cons_append, runOps]
    cases applyOp op st with
    | none => rfl
    | some st1 => exact ih st1

theorem appendedEntries_append (a b : List Op) :
    appendedEntries (a ++ b) = appendedEntries a ++ appendedEntries b := by
  induction a with
  | nil => rfl
  | cons op rest ih =>
    cases op with
    | submit now c out R =>
      show JSValue.obj (queueEntry now R) :: appendedEntries (rest ++ b) = _
      rw [ih]
      rfl
    | tick now out =>
      show appendedEntries (rest ++ b) = _
      rw [ih]
      rfl

theorem queueEntry_isReport (now : String) (R : JSObject) (h : IsReport R) :
    IsReport (queueEntry now R) := by
  obtain ⟨⟨s, hs⟩, hty⟩ := h
  exact ⟨⟨s, by rw [queueEntry_other now R "message" (by decide) (by decide), hs]⟩,
    by rw [queueEntry_other now R "type" (by decide) (by decide), hty]⟩

theorem queueEntry_isEntry (now : String) (R : JSObject) (h : IsReport R) :
    IsEntry (.obj (queueEntry now R)) :=
  ⟨_, 0, rfl, queueEntry_isReport now R h, queueEntry_retry_count now R, le_refl _, by norm_num⟩

theorem resetRetry_queueEntry (now : String) (R : JSObject) :
    resetRetry (.obj (queueEntry now R)) = .obj (queueEntry now R) := by
  simp only [resetRetry, setProp_of_getProp _ _ _ (queueEntry_retry_count now R)]

theorem getQueue_saveQueue (q : List JSValue) (st : Storage) :
    getQueue (saveQueue q st) = .ok (.arr q) := rfl

theorem getRecent_saveQueue (q : List JSValue) (st : Storage) :
    getRecent (saveQueue q st) = getRecent st := rfl

theorem getQueue_saveRecent (r : List JSValue) (st : Storage) :
    getQueue (saveRecent r st) = getQueue st := rfl

theorem getRecent_saveRecent (r : List JSValue) (st : Storage) :
    getRecent (saveRecent r st) = .ok (.arr r) := rfl

theorem fifo_submit (now : String) (chaosFault : Bool) (out : Outcome) (R : JSObject)
    (st : Storage) (appended : List JSValue) (k : Nat)
    (hinv : FifoInv st appended k)
    (hadm : (Op.submit now chaosFault out R).ClearOutcome) :
    ∃ st', applyOp (.submit now chaosFault out R) st = some st' ∧
      FifoInv st' (appended ++ [.obj (queueEntry now R)]) k := by
  obtain ⟨q, hq, hent, hdrop⟩ := hinv.queue
  obtain ⟨hfail, htext⟩ := hadm
  obtain ⟨err, htry⟩ := submitTry_failure now chaosFault out R st hfail
  refine ⟨saveQueue (q ++ [.obj (queueEntry now R)]) st, ?_, ?_, ?_, ?_⟩
  · simp only [applyOp, submitReport, htry, queueReport_arr now R st q hq, Option.map_some',
      Completion.storage]
  · refine ⟨_, getQueue_saveQueue _ _, ?_, ?_⟩
    · intro e he
      rcases List.mem_append.mp he with h | h
      · exact hent e h
      · rw [List.mem_singleton.mp h]
        exact queueEntry_isEntry now R htext
    · rw [List.map_append, hdrop, List.drop_append_of_le_length hinv.bound]
      simp only [List.map_cons, List.map_nil, resetRetry_queueEntry]
  · exact hinv.recent
  · have := hinv.bound
    simp only [List.length_append, List.length_singleton]
    omega

theorem drop_succ_of_cons {α : Type} (l : List α) (k : Nat) (x : α) (xs : List α)
    (h : l.drop k = x :: xs) : l.drop (k + 1) = xs ∧ k + 1 ≤ l.length := by
  have hlt : k < l.length := by
    by_contra hc
    rw [List.drop_eq_nil_of_le (by omega)] at h
    cases h
  refine ⟨?_, hlt⟩
  have : l.drop (k + 1) = (l.drop k).drop 1 := by
    rw [List.drop_drop, Nat.add_comm]
  rw [this, h]
  rfl

theorem fifo_tick (now : String) (out : Outcome) (st : Storage) (appended : List JSValue)
    (k : Nat) (hinv : FifoInv st appended k) (hadm : (Op.tick now out).ClearOutcome) :
    ∃ st' k', applyOp (.tick now out) st = some st' ∧ FifoInv st' appended k' ∧ k ≤ k' := by
  obtain ⟨q, hq, hent, hdrop⟩ := hinv.queue
  obtain ⟨recs, hrec, hrecs⟩ := hinv.recent
  cases q with
  | nil =>
    refine ⟨st, k, ?_, hinv, le_refl _⟩
    simp only [applyOp, tick, tickStart, hq, Option.map_some', Completion.storage]
  | cons e t =>
    obtain ⟨h, n, he, htext, hrc, h0, h10⟩ := hent e (List.mem_cons_self _ _)
    subst he
    have hstored : st.queue = .json (.arr (.obj h :: t)) := by
      rcases getQueue_arr_cases st _ hq with hs | ⟨hs, _⟩
      · exact hs
      · cases hs
    have htail : ∀ x ∈ t, IsEntry x := fun x hx => hent x (List.mem_cons_of_mem _ hx)
    simp only [List.map_cons] at hdrop
    obtain ⟨hdrop1, hbound1⟩ := drop_succ_of_cons appended k _ _ hdrop.symm
    rcases hadm with hf | ⟨body, id, hout, hid⟩
    · have hstep := tick_failure now out h t st n hstored hrc h0 h10 hf
      by_cases hgt : n + 1 > 10
      · simp only [hgt, if_true] at hstep
        refine ⟨saveQueue t st, k + 1, ?_, ⟨⟨t, rfl, htail, hdrop1.symm⟩, ⟨recs, hrec, hrecs⟩,
          hbound1⟩, Nat.le_succ k⟩
        simp only [applyOp, hstep, Option.map_some', Completion.storage]
      · simp only [hgt, if_false] at hstep
        refine ⟨saveQueue (.obj (setProp h "retry_count" (.num (n + 1))) :: t) st, k, ?_,
          ⟨⟨_, rfl, ?_, ?_⟩, ⟨recs, hrec, hrecs⟩, hinv.bound⟩, le_refl _⟩
        · simp only [applyOp, hstep, Option.map_some', Completion.storage]
        · intro x hx
          rcases List.mem_cons.mp hx with hx1 | hx1
          · rw [hx1]
            obtain ⟨⟨s, hs⟩, hty⟩ := htext
            exact ⟨_, n + 1, rfl,
              ⟨⟨s, by rw [getProp_setProp_other _ _ _ _ (by decide), hs]⟩,
                by rw [getProp_setProp_other _ _ _ _ (by decide), hty]⟩,
              getProp_setProp_same _ _ _, by omega, by omega⟩
          · exact htail x hx1
        · rw [← hdrop]
          simp only [List.map_cons, resetRetry, setProp_setProp_same]
    · subst hout
      have hrun := tick_success now h t st body id recs hstored hid hrec htext hrecs
      refine ⟨saveRecent (popIfOver (.obj (recentRecord now h (some (.str id))) :: recs))
          (saveQueue t st), k + 1, ?_,
        ⟨⟨t, rfl, htail, hdrop1.symm⟩,
          ⟨popIfOver (.obj (recentRecord now h (some (.str id))) :: recs), rfl, ?_⟩, hbound1⟩,
        Nat.le_succ k⟩
      · simp only [applyOp, hrun, Option.map_some', Completion.storage]
      · intro r hr
        rcases List.mem_cons.mp (popIfOver_mem _ _ hr) with h1 | h1
        · rw [h1]
          exact recentRecord_isRecord now h _ htext
        · exact hrecs r h1

theorem fifo_run (ops : List Op) :
    ∀ (st : Storage) (appended : List JSValue) (k : Nat), FifoInv st appended k →
      (∀ op ∈ ops, op.ClearOutcome) →
      ∃ st' k', runOps ops st = some st' ∧
        FifoInv st' (appended ++ appendedEntries ops) k' ∧ k ≤ k' := by
  induction ops with
  | nil =>
    intro st appended k hinv _
    exact ⟨st, k, rfl, by simpa [appendedEntries] using hinv, le_refl _⟩
  | cons op rest ih =>
    intro st appended k hinv hadm
    have hop := hadm op (List.mem_cons_self _ _)
    have hrest : ∀ o ∈ rest, o.ClearOutcome := fun o ho => hadm o (List.mem_cons_of_mem _ ho)
    cases op with
    | submit now c out R =>
      obtain ⟨st1, h1, hinv1⟩ := fifo_submit now c out R st appended k hinv hop
      obtain ⟨st2, k2, h2, hinv2, hk⟩ := ih st1 _ k hinv1 hrest
      refine ⟨st2, k2, ?_, ?_, hk⟩
      · simp only [runOps, h1, h2]
      · simpa [appendedEntries, List.append_assoc] using hinv2
    | tick now out =>
      obtain ⟨st1, k1, h1, hinv1, hk1⟩ := fifo_tick now out st appended k hinv hop
      obtain ⟨st2, k2, h2, hinv2, hk⟩ := ih st1 _ k1 hinv1 hrest
      refine ⟨st2, k2, ?_, ?_, le_trans hk1 hk⟩
      · simp only [runOps, h1, h2]
      · simpa [appendedEntries] using hinv2

theorem fifo_initial (st0 : Storage) (recs : List JSValue)
    (hq0 : getQueue st0 = .ok (.arr []))
    (hr0 : getRecent st0 = .ok (.arr recs)) (hrecs : ∀ r ∈ recs, IsRecord r) :
    FifoInv st0 [] 0 :=
  ⟨⟨[], hq0, fun _ h => absurd h (List.not_mem_nil _), rfl⟩, ⟨recs, hr0, hrecs⟩, le_refl _⟩

theorem removed_of_inv (st : Storage) (appended : List JSValue) (k : Nat)
    (hinv : FifoInv st appended k) :
    ∃ q, getQueue st = .ok (.arr q) ∧ appended.take k ++ q.map resetRetry = appended := by
  obtain ⟨q, hq, _, hdrop⟩ := hinv.queue
  exact ⟨q, hq, by rw [hdrop, List.take_append_drop]⟩

/-- FIFO in the runs where every tick is answered by a failure or by a delivery: start
from an empty queue and apply, one after another, submits whose delivery fails (of
reports with a string message) and such ticks. At any point of the sequence the stored
queue is, up to retry counts, what remains of the appended entries after the removed ones,
which are the first appended entries in their order; and what was removed at an earlier
point is an initial segment of what is removed later. A tick answered by 2xx without a
string report_id is not covered: there the order is broken. -/
theorem fifo_order_of_clear_outcomes (st0 : Storage) (recs : List JSValue) (ops more : List Op)
    (hq0 : getQueue st0 = .ok (.arr []))
    (hr0 : getRecent st0 = .ok (.arr recs)) (hrecs : ∀ r ∈ recs, IsRecord r)
    (hops : ∀ op ∈ ops ++ more, op.ClearOutcome) :
    ∃ st1 st2 q1 q2 removed1 removed2,
      runOps ops st0 = some st1 ∧ runOps (ops ++ more) st0 = some st2 ∧
      getQueue st1 = .ok (.arr q1) ∧ getQueue st2 = .ok (.arr q2) ∧
      removed1 ++ q1.map resetRetry = appendedEntries ops ∧
      removed2 ++ q2.map resetRetry = appendedEntries (ops ++ more) ∧
      removed1 <+: removed2 ∧ removed2 <+: appendedEntries (ops ++ more) := by
  have hinit := fifo_initial st0 recs hq0 hr0 hrecs
  obtain ⟨st1, k1, hrun1, hinv1, _⟩ := fifo_run ops st0 [] 0 hinit
    (fun op h => hops op (List.mem_append_left _ h))
  obtain ⟨st2, k2, hrun2, hinv2, hk⟩ := fifo_run more st1 _ k1 hinv1
    (fun op h => hops op (List.mem_append_right _ h))
  simp only [List.nil_append] at hinv1 hinv2
  rw [← appendedEntries_append] at hinv2
  obtain ⟨q1, hq1, hrem1⟩ := removed_of_inv _ _ _ hinv1
  obtain ⟨q2, hq2, hrem2⟩ := removed_of_inv _ _ _ hinv2
  refine ⟨st1, st2, q1, q2, (appendedEntries ops).take k1,
    (appendedEntries (ops ++ more)).take k2, hrun1, ?_, hq1, hq2, hrem1, hrem2, ?_,
    List.take_prefix _ _⟩
  · rw [runOps_append, hrun1]
    exact hrun2
  · have hb := hinv1.bound
    rw [appendedEntries_append, List.take_append_eq_append_take]
    have h1 : (appendedEntries ops).take k2 = (appendedEntries ops).take k1 ++
        ((appendedEntries ops).drop k1).take (k2 - k1) := by
      have : k2 = k1 + (k2 - k1) := by omega
      conv_lhs => rw [this, List.take_add]
    rw [h1, List.append_assoc]
    exact List.prefix_append _ _

theorem sampleOps_clearOutcome : ∀ op ∈ sampleOps ++ sampleMore, op.ClearOutcome := by
  intro op h
  simp only [sampleOps, sampleMore, List.cons_append, List.nil_append, List.mem_cons,
    List.mem_singleton, List.not_mem_nil, or_false] at h
  rcases h with rfl | rfl | rfl | rfl
  · exact ⟨Or.inr rfl, ⟨"x", rfl⟩, rfl⟩
  · exact ⟨Or.inl rfl, ⟨"boom", rfl⟩, rfl⟩
  · exact Or.inl rfl
  · exact Or.inr ⟨_, "r-9", rfl, rfl⟩

/-- FIFO at a concrete run: two failed submits and a failed tick, then a tick that
delivers. -/
theorem fifo_order_of_clear_outcomes_example :
    getQueue (sampleStorage []) = .ok (.arr []) ∧
    getRecent (sampleStorage []) = .ok (.arr []) ∧
    (∀ r ∈ ([] : List JSValue), IsRecord r) ∧
    (∀ op ∈ sampleOps ++ sampleMore, op.ClearOutcome) ∧
    ∃ st1 st2 q1 q2 removed1 removed2,
      runOps sampleOps (sampleStorage []) = some st1 ∧
      runOps (sampleOps ++ sampleMore) (sampleStorage []) = some st2 ∧
      getQueue st1 = .ok (.arr q1) ∧ getQueue st2 = .ok (.arr q2) ∧
      removed1 ++ q1.map resetRetry = appendedEntries sampleOps ∧
      removed2 ++ q2.map resetRetry = appendedEntries (sampleOps ++ sampleMore) ∧
      removed1 <+: removed2 ∧ removed2 <+: appendedEntries (sampleOps ++ sampleMore) :=
  ⟨rfl, rfl, fun _ h => absurd h (List.not_mem_nil _), sampleOps_clearOutcome,
    fifo_order_of_clear_outcomes (sampleStorage []) [] sampleOps sampleMore rfl rfl
      (fun _ h => absurd h (List.not_mem_nil _)) sampleOps_clearOutcome⟩

/-! ## The bound of the recent history -/

theorem displayItem_record_ne_none (d : Delivery) (h : PlainReport d.reportData) :
    displayItem d.record ≠ none := by
  obtain ⟨hty, hmsg⟩ := h
  simp only [Delivery.record, displayItem, recentRecord_message, recentRecord_type,
    recentRecord_timestamp, hty, if_true]
  cases hm : getProp d.reportData "message" with
  | none => simp [truncate]
  | some v =>
    rw [hm] at hmsg
    cases v <;> simp_all [truncate, isPlain]

theorem displayItems_ne_none (items : List JSValue) (h : ∀ x ∈ items, displayItem x ≠ none) :
    displayItems items ≠ none := by
  induction items with
  | nil => simp [displayItems]
  | cons x rest ih =>
    have hx := h x (List.mem_cons_self _ _)
    have hrest := ih (fun y hy => h y (List.mem_cons_of_mem _ hy))
    unfold displayItems
    cases hd : displayItem x with
    | none => exact absurd hd hx
    | some r =>
      cases r with
      | ok u => cases u; exact hrest
      | error e => simp

theorem addToRecent_storage (d : Delivery) (st : Storage) (L : List JSValue)
    (hrec : getRecent st = .ok (.arr L)) (hL : ∀ x ∈ L, displayItem x ≠ none)
    (hd : PlainReport d.reportData) :
    ∃ c, addToRecent d.now d.reportData d.reportId st = some c ∧
      c.storage = saveRecent (popIfOver (d.record :: L)) st := by
  have hall : ∀ x ∈ popIfOver (d.record :: L), displayItem x ≠ none := by
    intro x hx
    rcases List.mem_cons.mp (popIfOver_mem _ _ hx) with h | h
    · rw [h]; exact displayItem_record_ne_none d hd
    · exact hL x h
  have hne := displayItems_ne_none _ hall
  unfold addToRecent
  rw [hrec]
  simp only [displayRecent, getRecent, saveRecent, parseOrEmpty]
  cases hdisp : displayItems (popIfOver (.obj (recentRecord d.now d.reportData d.reportId) :: L)) with
  | none => exact absurd hdisp hne
  | some r =>
    cases r with
    | ok u => cases u; exact ⟨_, rfl, rfl⟩
    | error e => exact ⟨_, rfl, rfl⟩

theorem popIfOver_eq_take (r : JSValue) (L : List JSValue) (h : L.length ≤ 5) :
    popIfOver (r :: L) = (r :: L).take 5 := by
  unfold popIfOver
  by_cases h5 : (r :: L).length > 5
  · simp only [h5, if_true, List.dropLast_eq_take]
    simp only [List.length_cons] at h5 ⊢
    have : L.length + 1 - 1 = 5 := by omega
    rw [this]
  · simp only [h5, if_false]
    simp only [List.length_cons] at h5
    exact (List.take_of_length_le (by simp only [List.length_cons]; omega)).symm

theorem take_append_take {α : Type} (n : Nat) (A B : List α) :
    (A ++ B.take n).take n = (A ++ B).take n := by
  rw [List.take_append_eq_append_take, List.take_append_eq_append_take, List.take_take]
  congr 2
  omega

theorem recordAll_from (ds : List Delivery) :
    ∀ (st : Storage) (L : List JSValue), getRecent st = .ok (.arr L) → L.length ≤ 5 →
      (∀ x ∈ L, displayItem x ≠ none) → (∀ d ∈ ds, PlainReport d.reportData) →
      ∃ st', recordAll ds st = some st' ∧ st'.queue = st.queue ∧
        getRecent st' = .ok (.arr (((ds.map Delivery.record).reverse ++ L).take 5)) := by
  induction ds with
  | nil =>
    intro st L hrec hlen _ _
    refine ⟨st, rfl, rfl, ?_⟩
    simp only [List.map_nil, List.reverse_nil, List.nil_append]
    rw [List.take_of_length_le hlen]
    exact hrec
  | cons d rest ih =>
    intro st L hrec hlen hL hds
    obtain ⟨c, hc, hst⟩ := addToRecent_storage d st L hrec hL
      (hds d (List.mem_cons_self _ _))
    rw [popIfOver_eq_take _ _ hlen] at hst
    have hL1 : ∀ x ∈ (d.record :: L).take 5, displayItem x ≠ none := by
      intro x hx
      rcases List.mem_cons.mp (List.mem_of_mem_take hx) with h | h
      · rw [h]; exact displayItem_record_ne_none d (hds d (List.mem_cons_self _ _))
      · exact hL x h
    obtain ⟨st', hrun, hq, hres⟩ := ih c.storage ((d.record :: L).take 5)
      (by rw [hst]; rfl) (by simp only [List.length_take]; omega) hL1
      (fun x hx => hds x (List.mem_cons_of_mem _ hx))
    refine ⟨st', ?_, ?_, ?_⟩
    · simp only [recordAll, hc, hrun]
    · rw [hq, hst]; rfl
    · rw [hres, take_append_take]
      simp only [List.map_cons, List.reverse_cons, List.append_assoc, List.singleton_append]

/-- C7: starting from an empty recent history, after the deliveries ds have been recorded
through addToRecent (reports whose message is not an array or object), getRecent returns
the records of the deliveries newest first, cut to five: min(N, 5) records, exactly 5 when
N > 5, and record i of the list is the record of delivery N - i (counted from 1), that is
entry N - 1 - i of ds. The queue key is not touched. -/
theorem recent_history_bound (st0 : Storage) (ds : List Delivery)
    (hr0 : getRecent st0 = .ok (.arr []))
    (hds : ∀ d ∈ ds, PlainReport d.reportData) :
    ∃ st L, recordAll ds st0 = some st ∧ getRecent st = .ok (.arr L) ∧
      st.queue = st0.queue ∧
      L = ((ds.map Delivery.record).reverse).take 5 ∧
      L.length = min ds.length 5 ∧
      (5 < ds.length → L.length = 5) ∧
      ∀ i, i < min ds.length 5 → L[i]? = (ds[ds.length - 1 - i]?).map Delivery.record := by
  obtain ⟨st, hrun, hq, hres⟩ := recordAll_from ds st0 [] hr0 (by simp)
    (fun _ h => absurd h (List.not_mem_nil _)) hds
  simp only [List.append_nil] at hres
  have hlen : (((ds.map Delivery.record).reverse).take 5).length = min ds.length 5 := by
    simp only [List.length_take, List.length_reverse, List.length_map]
    exact Nat.min_comm _ _
  refine ⟨st, _, hrun, hres, hq, rfl, hlen, ?_, ?_⟩
  · intro h
    rw [hlen]
    omega
  · intro i hi
    have hi5 : i < 5 := by omega
    have hiN : i < ds.length := by omega
    rw [List.getElem?_take_of_lt hi5, List.getElem?_reverse (by simpa using hiN)]
    simp only [List.length_map, List.getElem?_map]

theorem sampleDelivery_plain (n : Nat) : PlainReport (sampleDelivery n).reportData := by
  exact ⟨rfl, rfl⟩

/-- C7 at a concrete input: seven deliveries, numbered 0 to 6, recorded into an empty
history. -/
theorem recent_history_bound_witness :
    getRecent (sampleStorage []) = .ok (.arr []) ∧
    (∀ d ∈ (List.range 7).map sampleDelivery, PlainReport d.reportData) ∧
    ∃ st L, recordAll ((List.range 7).map sampleDelivery) (sampleStorage []) = some st ∧
      getRecent st = .ok (.arr L) ∧
      st.queue = (sampleStorage []).queue ∧
      L = ((((List.range 7).map sampleDelivery).map Delivery.record).reverse).take 5 ∧
      L.length = min ((List.range 7).map sampleDelivery).length 5 ∧
      (5 < ((List.range 7).map sampleDelivery).length → L.length = 5) ∧
      ∀ i, i < min ((List.range 7).map sampleDelivery).length 5 →
        L[i]? = (((List.range 7).map sampleDelivery)[
          ((List.range 7).map sampleDelivery).length - 1 - i]?).map Delivery.record :=
  ⟨rfl,
    fun d h => by
      obtain ⟨n, _, rfl⟩ := List.mem_map.mp h
      exact sampleDelivery_plain n,
    recent_history_bound (sampleStorage []) ((List.range 7).map sampleDelivery) rfl
      (fun d h => by
        obtain ⟨n, _, rfl⟩ := List.mem_map.mp h
        exact sampleDelivery_plain n)⟩

/-! ## A response without report_id -/

/-- C8, the failing input: two entries a and b are queued and the collector answers the
retry of a with 2xx and an empty JSON object as body. The callback shifts a out and saves, then
`result.report_id.substring` throws inside the `try`; the `catch` block raises the count of
a and assigns it to index 0 of the already shifted array, over b. The stored queue is
a alone with retry_count 1: b, which was never attempted, is gone, and no record is made. -/
theorem tick_malformed_response_loses_entry :
    tick "t" (.json (.obj []))
        (sampleStorage [.obj (sampleEntry "a" 0), .obj (sampleEntry "b" 0)]) =
      some (.returned (sampleStorage [.obj (sampleEntry "a" 1)])) := by
  rfl

/-! ## Corrupt storage -/

/-- C9, counterexample: text that is not valid JSON makes getQueue and getRecent fail with
the SyntaxError of JSON.parse, and stored JSON that is not an array (here an object without
properties) is returned as it is: in neither case is the result the empty list. Nothing
downstream recovers either: with such a queue key a tick ends in the SyntaxError, and a
submit whose delivery fails ends in the SyntaxError (or, for the object, in a TypeError)
without storing the report. -/
theorem getQueue_corrupt_counterexample :
    NotAList .malformed ∧ NotAList (.json (.obj [])) ∧
    getQueue { queue := .malformed, recent := .unset } = .error .syntaxError ∧
    getQueue { queue := .malformed, recent := .unset } ≠ .ok (.arr []) ∧
    getQueue { queue := .json (.obj []), recent := .unset } = .ok (.obj []) ∧
    getQueue { queue := .json (.obj []), recent := .unset } ≠ .ok (.arr []) ∧
    getRecent { queue := .unset, recent := .malformed } = .error .syntaxError ∧
    getRecent { queue := .unset, recent := .malformed } ≠ .ok (.arr []) ∧
    getRecent { queue := .unset, recent := .json (.obj []) } ≠ .ok (.arr []) ∧
    tick "t" .networkFault { queue := .malformed, recent := .unset } =
      some (.threw .syntaxError { queue := .malformed, recent := .unset }) ∧
    submitReport "t" false .networkFault sampleReport { queue := .malformed, recent := .unset } =
      some (.threw .syntaxError { queue := .malformed, recent := .unset }) ∧
    submitReport "t" false .networkFault sampleReport
        { queue := .json (.obj []), recent := .unset } =
      some (.threw .typeError { queue := .json (.obj []), recent := .unset }) := by
  refine ⟨trivial, trivial, rfl, ?_, rfl, ?_, rfl, ?_, ?_, rfl, rfl, rfl⟩
  · intro h; cases h
  · intro h; cases h
  · intro h; cases h
  · intro h; cases h

/-- C9, amended: getQueue returns the empty list when the queue key is unset or holds the
empty string; it fails with the SyntaxError of JSON.parse when the text is not valid JSON;
and it returns whatever valid JSON parses to, array or not. getRecent does the same on the
recent key. Either ignores the other key. -/
theorem getQueue_getRecent_cases (other : Stored) (v : JSValue) :
    getQueue { queue := .unset, recent := other } = .ok (.arr []) ∧
    getQueue { queue := .emptyText, recent := other } = .ok (.arr []) ∧
    getQueue { queue := .malformed, recent := other } = .error .syntaxError ∧
    getQueue { queue := .json v, recent := other } = .ok v ∧
    getRecent { queue := other, recent := .unset } = .ok (.arr []) ∧
    getRecent { queue := other, recent := .emptyText } = .ok (.arr []) ∧
    getRecent { queue := other, recent := .malformed } = .error .syntaxError ∧
    getRecent { queue := other, recent := .json v } = .ok v :=
  ⟨rfl, rfl, rfl, rfl, rfl, rfl, rfl, rfl⟩

/-! ## Single flight -/

theorem addToRecent_queue (now : String) (R : JSObject) (id : Option JSValue) (st : Storage)
    (c : Completion) (h : addToRecent now R id st = some c) : c.storage.queue = st.queue := by
  unfold addToRecent at h
  cases hg : getRecent st with
  | error e => rw [hg] at h; cases h; rfl
  | ok v =>
    rw [hg] at h
    cases v with
    | arr recent =>
      dsimp only at h
      cases hd : displayRecent
          (saveRecent (popIfOver (.obj (recentRecord now R id) :: recent)) st) with
      | none => rw [hd] at h; cases h
      | some r =>
        rw [hd] at h
        cases r with
        | ok u => cases u; cases h; rfl
        | error e => cases h; rfl
    | null => cases h; rfl
    | bool b => cases h; rfl
    | num n => cases h; rfl
    | str x => cases h; rfl
    | obj o => cases h; rfl

theorem submitTry_queue (now : String) (chaosFault : Bool) (out : Outcome) (R : JSObject)
    (st : Storage) (c : Completion) (h : submitTry now chaosFault out R st = some c) :
    c.storage.queue = st.queue := by
  unfold submitTry at h
  split at h
  · cases h; rfl
  · split at h
    · cases h; rfl
    · cases h; rfl
    · cases h; rfl
    · cases h; rfl
    · split at h
      · cases h
      · exact addToRecent_queue _ _ _ _ _ h

theorem submitReport_keeps_head (now : String) (chaosFault : Bool) (out : Outcome)
    (R : JSObject) (st : Storage) (c : Completion) (x : JSValue) (t : List JSValue)
    (hq : st.queue = .json (.arr (x :: t)))
    (h : submitReport now chaosFault out R st = some c) :
    ∃ t', c.storage.queue = .json (.arr (x :: t')) := by
  unfold submitReport at h
  cases htry : submitTry now chaosFault out R st with
  | none => rw [htry] at h; cases h
  | some c1 =>
    have hq1 := submitTry_queue now chaosFault out R st c1 htry
    rw [htry] at h
    cases c1 with
    | returned st1 =>
      cases h
      exact ⟨t, by rw [← hq]; exact hq1⟩
    | threw e st1 =>
      simp only [Option.some.injEq] at h
      simp only [Completion.storage] at hq1
      have hg : getQueue st1 = .ok (.arr (x :: t)) := by
        simp only [getQueue, hq1, hq, parseOrEmpty]
      rw [queueReport_arr now R st1 _ hg] at h
      subst h
      exact ⟨t ++ [JSValue.obj (queueEntry now R)], rfl⟩

theorem tickStart_request (st : Storage) (p : JSObject) (l : TickLocals)
    (h : tickStart st = some (.request p l)) :
    ∃ t, st.queue = .json (.arr (.obj l.item :: t)) ∧ l.queue = .obj l.item :: t ∧
      p = retryPayload l.item := by
  unfold tickStart at h
  split at h
  · cases h
  · cases h
  · rename_i item rest hg
    simp only [Option.some.injEq, TickStart.request.injEq] at h
    obtain ⟨hp, hl⟩ := h
    subst hl
    rcases getQueue_arr_cases st _ hg with hs | ⟨hs, _⟩
    · exact ⟨rest, hs, rfl, hp.symm⟩
    · cases hs
  · cases h

theorem step_singleFlight (ev : Event) (s s1 : Sys) (hinv : SingleFlight s)
    (hser : Serial [ev] s) (hstep : step ev s = some s1) : SingleFlight s1 := by
  obtain ⟨hlen, hhead⟩ := hinv
  cases ev with
  | timer =>
    have hnil : s.pending = [] := hser.1
    simp only [step] at hstep
    cases hts : tickStart s.store with
    | none => rw [hts] at hstep; cases hstep
    | some r =>
      rw [hts] at hstep
      cases r with
      | idle => cases hstep; exact ⟨hlen, hhead⟩
      | threw e => cases hstep; exact ⟨hlen, hhead⟩
      | request p l =>
        simp only [Option.some.injEq] at hstep
        subst hstep
        obtain ⟨t, hq, _, _⟩ := tickStart_request s.store p l hts
        refine ⟨by simp [hnil], ?_⟩
        intro l1 hl1
        simp only [hnil, List.nil_append, List.mem_singleton] at hl1
        subst hl1
        exact ⟨t, hq⟩
  | response i now out =>
    simp only [step] at hstep
    cases hget : s.pending.get? i with
    | none => rw [hget] at hstep; cases hstep
    | some l =>
      rw [hget] at hstep
      dsimp only at hstep
      cases hres : tickResume now out l s.store with
      | none => rw [hres] at hstep; cases hstep
      | some c =>
        rw [hres] at hstep
        simp only [Option.some.injEq] at hstep
        subst hstep
        have hi : i < s.pending.length := by
          by_contra hc
          rw [List.get?_eq_none.mpr (by omega)] at hget
          cases hget
        have hempty : s.pending.eraseIdx i = [] := by
          apply List.eq_nil_of_length_eq_zero
          rw [List.length_eraseIdx]
          simp only [hi, if_true]
          omega
        refine ⟨by simp [hempty], ?_⟩
        intro l1 hl1
        rw [hempty] at hl1
        cases hl1
  | submit now chaosFault out R =>
    simp only [step] at hstep
    cases hsub : submitReport now chaosFault out R s.store with
    | none => rw [hsub] at hstep; cases hstep
    | some c =>
      rw [hsub] at hstep
      simp only [Option.some.injEq] at hstep
      subst hstep
      refine ⟨hlen, ?_⟩
      intro l hl
      obtain ⟨t, hq⟩ := hhead l hl
      exact submitReport_keeps_head now chaosFault out R s.store c _ t hq hsub

theorem serial_head (ev : Event) (rest : List Event) (s : Sys) (h : Serial (ev :: rest) s) :
    Serial [ev] s := by
  cases ev with
  | timer =>
    refine ⟨h.1, ?_⟩
    cases step .timer s <;> trivial
  | response i now out =>
    show match step (.response i now out) s with
      | none => True
      | some s1 => Serial [] s1
    cases step (.response i now out) s <;> trivial
  | submit now c out R =>
    show match step (.submit now c out R) s with
      | none => True
      | some s1 => Serial [] s1
    cases step (.submit now c out R) s <;> trivial

theorem serial_tail (ev : Event) (rest : List Event) (s s1 : Sys)
    (h : Serial (ev :: rest) s) (hstep : step ev s = some s1) : Serial rest s1 := by
  cases ev with
  | timer =>
    have h2 := h.2
    rw [hstep] at h2
    exact h2
  | response i now out =>
    have h2 : match step (.response i now out) s with
      | none => True
      | some s1 => Serial rest s1 := h
    rw [hstep] at h2
    exact h2
  | submit now c out R =>
    have h2 : match step (.submit now c out R) s with
      | none => True
      | some s1 => Serial rest s1 := h
    rw [hstep] at h2
    exact h2

theorem runEvents_singleFlight (evs : List Event) :
    ∀ (s0 s : Sys), SingleFlight s0 → Serial evs s0 → runEvents evs s0 = some s →
      SingleFlight s := by
  induction evs with
  | nil =>
    intro s0 s hinv _ hrun
    cases hrun
    exact hinv
  | cons ev rest ih =>
    intro s0 s hinv hser hrun
    simp only [runEvents] at hrun
    cases hstep : step ev s0 with
    | none => rw [hstep] at hrun; cases hrun
    | some s1 =>
      rw [hstep] at hrun
      exact ih s1 s (step_singleFlight ev s0 s1 hinv (serial_head ev rest s0 hser) hstep)
        (serial_tail ev rest s0 s1 hser hstep) hrun

/-- C10, counterexample: one entry a is queued and the interval fires twice before the
first response arrives. Both callbacks read the same stored queue and each issues a request
for a, so two attempts are outstanding. When the first then succeeds, the stored queue is
empty while the second attempt, for a, is still outstanding. -/
theorem single_flight_counterexample :
    (∃ s, runEvents [.timer, .timer] sampleSys = some s ∧ s.pending.length = 2 ∧
      ¬ SingleFlight s) ∧
    (∃ s, runEvents [.timer, .timer,
        .response 0 "t" (.json (.obj [("report_id", .str "r-1")]))] sampleSys = some s ∧
      s.store.queue = .json (.arr []) ∧
      s.pending.map TickLocals.item = [sampleEntry "a" 0] ∧ ¬ SingleFlight s) := by
  refine ⟨⟨_, rfl, rfl, fun h => absurd h.1 (by decide)⟩, ⟨_, rfl, rfl, rfl, fun h => ?_⟩⟩
  obtain ⟨t, ht⟩ := h.2 _ (List.mem_singleton_self _)
  simp only [Stored.json.injEq, JSValue.arr.injEq] at ht
  cases ht

/-- C10, amended: in every execution in which the interval does not fire while an attempt
of an earlier tick is outstanding, at most one attempt issued by a tick is outstanding at
any moment and it is for the entry that is the head of the stored queue at that moment;
and in any execution one firing of the interval issues at most one attempt, which is for
the head of the stored queue at the firing, and leaves the storage as it is. -/
theorem single_flight_when_serial (evs : List Event) (s0 s : Sys)
    (h0 : s0.pending = []) (hser : Serial evs s0) (hrun : runEvents evs s0 = some s) :
    (s.pending.length ≤ 1 ∧
      ∀ l ∈ s.pending, ∃ t, s.store.queue = .json (.arr (.obj l.item :: t))) ∧
    ∀ s1 s2, step .timer s1 = some s2 →
      s2.store = s1.store ∧
      (s2.pending = s1.pending ∨
        ∃ l t, s2.pending = s1.pending ++ [l] ∧
          s1.store.queue = .json (.arr (.obj l.item :: t))) := by
  constructor
  · have hinit : SingleFlight s0 := by
      refine ⟨by simp [h0], ?_⟩
      intro l hl
      rw [h0] at hl
      cases hl
    exact runEvents_singleFlight evs s0 s hinit hser hrun
  · intro s1 s2 hstep
    simp only [step] at hstep
    cases hts : tickStart s1.store with
    | none => rw [hts] at hstep; cases hstep
    | some r =>
      rw [hts] at hstep
      cases r with
      | idle => cases hstep; exact ⟨rfl, Or.inl rfl⟩
      | threw e => cases hstep; exact ⟨rfl, Or.inl rfl⟩
      | request p l =>
        simp only [Option.some.injEq] at hstep
        subst hstep
        obtain ⟨t, hq, _, _⟩ := tickStart_request s1.store p l hts
        exact ⟨rfl, Or.inr ⟨l, t, rfl, hq⟩⟩

/-- C10 amended, at a concrete input: the sample schedule run on the sample system. -/
theorem single_flight_when_serial_witness :
    sampleSys.pending = [] ∧ Serial sampleSchedule sampleSys ∧
    runEvents sampleSchedule sampleSys =
      some {
        store := {
          queue := .json (.arr []),
          recent := .json (.arr [.obj (recentRecord "t3" (sampleEntry "a" 1)
            (some (.str "r-1")))]) },
        pending := [] } ∧
    (([] : List TickLocals).length ≤ 1 ∧
      ∀ l ∈ ([] : List TickLocals), ∃ t,
        Stored.json (.arr []) = .json (.arr (.obj l.item :: t))) :=
  ⟨rfl, ⟨rfl, rfl, trivial⟩, rfl,
    (single_flight_when_serial sampleSchedule sampleSys _ rfl ⟨rfl, rfl, trivial⟩ rfl).1⟩

/-! ## The retry payload -/

theorem retryPayload_get (h : JSObject) (k : String) :
    getProp (retryPayload h) k = if k ∈ payloadKeys then getProp h k else none := by
  unfold retryPayload payloadKeys
  cases h1 : getProp h "type" <;> cases h2 : getProp h "message" <;>
    cases h3 : getProp h "platform" <;> cases h4 : getProp h "app_version" <;>
    simp only [definedProps, getProp, List.mem_cons, List.mem_singleton, List.not_mem_nil,
      or_false, @eq_comm String _ k] <;>
    by_cases e1 : k = "type" <;> by_cases e2 : k = "message" <;>
    by_cases e3 : k = "platform" <;> by_cases e4 : k = "app_version" <;>
    simp_all

theorem retryPayload_keys (h : JSObject) :
    (retryPayload h).map Prod.fst =
      payloadKeys.filter (fun k => (getProp h k).isSome) := by
  unfold retryPayload payloadKeys
  cases h1 : getProp h "type" <;> cases h2 : getProp h "message" <;>
    cases h3 : getProp h "platform" <;> cases h4 : getProp h "app_version" <;>
    simp [definedProps, List.filter, h1, h2, h3, h4]

/-- C12: for a stored queue with head h, the request that a tick issues carries a payload
whose type, message, platform and app_version read as those of h and in which every other
property, screenshot, queued_at and retry_count among them, is absent, whatever h holds.
Its property names are those of the four that h has, in that order: exactly the four when
h has all of them. -/
theorem retry_payload_fields (st : Storage) (h : JSObject) (t : List JSValue)
    (hq : st.queue = .json (.arr (.obj h :: t))) :
    ∃ p l, tickStart st = some (.request p l) ∧ l.item = h ∧
      (∀ k ∈ payloadKeys, getProp p k = getProp h k) ∧
      (∀ k, k ∉ payloadKeys → getProp p k = none) ∧
      getProp p "screenshot" = none ∧ getProp p "queued_at" = none ∧
      getProp p "retry_count" = none ∧
      p.map Prod.fst = payloadKeys.filter (fun k => (getProp h k).isSome) ∧
      ((∀ k ∈ payloadKeys, (getProp h k).isSome = true) → p.map Prod.fst = payloadKeys) := by
  refine ⟨retryPayload h, { queue := .obj h :: t, item := h }, tickStart_head st h t hq, rfl,
    ?_, ?_, ?_, ?_, ?_, retryPayload_keys h, ?_⟩
  · intro k hk
    rw [retryPayload_get, if_pos hk]
  · intro k hk
    rw [retryPayload_get, if_neg hk]
  · rw [retryPayload_get, if_neg (by decide)]
  · rw [retryPayload_get, if_neg (by decide)]
  · rw [retryPayload_get, if_neg (by decide)]
  · intro hall
    rw [retryPayload_keys]
    exact List.filter_eq_self.mpr (fun k hk => hall k hk)

/-- C12 at a concrete input: the head was queued with a screenshot; the payload is the four
properties and nothing else. -/
theorem retry_payload_fields_witness :
    (sampleStorage [.obj sampleEntryWithShot, .obj (sampleEntry "b" 0)]).queue =
      .json (.arr (.obj sampleEntryWithShot :: [.obj (sampleEntry "b" 0)])) ∧
    getProp sampleEntryWithShot "screenshot" = some (.str "data:image/png;base64,AAAA") ∧
    tickStart (sampleStorage [.obj sampleEntryWithShot, .obj (sampleEntry "b" 0)]) =
      some (.request
        [("type", .str "crash"), ("message", .str "boom"), ("platform", .str "ios"),
          ("app_version", .str "1.0.0")]
        { queue := [.obj sampleEntryWithShot, .obj (sampleEntry "b" 0)],
          item := sampleEntryWithShot }) ∧
    ∃ p l, tickStart (sampleStorage [.obj sampleEntryWithShot, .obj (sampleEntry "b" 0)]) =
        some (.request p l) ∧ l.item = sampleEntryWithShot ∧
      (∀ k ∈ payloadKeys, getProp p k = getProp sampleEntryWithShot k) ∧
      (∀ k, k ∉ payloadKeys → getProp p k = none) ∧
      getProp p "screenshot" = none ∧ getProp p "queued_at" = none ∧
      getProp p "retry_count" = none ∧
      p.map Prod.fst =
        payloadKeys.filter (fun k => (getProp sampleEntryWithShot k).isSome) ∧
      ((∀ k ∈ payloadKeys, (getProp sampleEntryWithShot k).isSome = true) →
        p.map Prod.fst = payloadKeys) :=
  ⟨rfl, rfl, rfl,
    retry_payload_fields (sampleStorage [.obj sampleEntryWithShot, .obj (sampleEntry "b" 0)])
      sampleEntryWithShot [.obj (sampleEntry "b" 0)] rfl⟩

/-! ## A submit during an outstanding attempt -/

/-- C11, the failing input: one entry a is queued; the interval fires and the callback
reads the queue and issues its request; while that request is outstanding a submit fails
and queueReport appends its entry, so that two entries are stored; then the response of
the tick arrives. The callback writes back the array it read before its `await`: on a
failed attempt the stored queue is a alone with retry_count 1, on a delivery it is empty.
Either way the entry of the submit is gone. When the same submit runs after the tick has
ended, its entry is kept. -/
theorem tick_overwrites_concurrent_submit :
    runEvents [.timer, .submit "t1" false .networkFault sampleReport] sampleSys =
      some {
        store := sampleStorage
          [.obj (sampleEntry "a" 0), .obj (queueEntry "t1" sampleReport)],
        pending := [{ queue := [.obj (sampleEntry "a" 0)], item := sampleEntry "a" 0 }] } ∧
    runEvents [.timer, .submit "t1" false .networkFault sampleReport,
        .response 0 "t2" .networkFault] sampleSys =
      some { store := sampleStorage [.obj (sampleEntry "a" 1)], pending := [] } ∧
    runEvents [.timer, .submit "t1" false .networkFault sampleReport,
        .response 0 "t2" (.json (.obj [("report_id", .str "r-1")]))] sampleSys =
      some {
        store := {
          queue := .json (.arr []),
          recent := .json (.arr [.obj (recentRecord "t2" (sampleEntry "a" 0)
            (some (.str "r-1")))]) },
        pending := [] } ∧
    runEvents [.timer, .response 0 "t2" .networkFault,
        .submit "t1" false .networkFault sampleReport] sampleSys =
      some {
        store := sampleStorage
          [.obj (sampleEntry "a" 1), .obj (queueEntry "t1" sampleReport)],
        pending := [] } :=
  ⟨rfl, rfl, rfl, rfl⟩

/-! ## Bounded drain -/

theorem drainBudget_cons (x : JSValue) (t : List JSValue) :
    drainBudget (x :: t) = retryLeft x + drainBudget t := by
  simp [drainBudget]

theorem retryLeft_of_count (h : JSObject) (n : Int)
    (hrc : getProp h "retry_count" = some (.num n)) :
    retryLeft (.obj h) = (11 - n).toNat := by
  simp only [retryLeft, hrc]

theorem retryLeft_pos (e : JSValue) (he : IsEntry e) : 1 ≤ retryLeft e ∧ retryLeft e ≤ 11 := by
  obtain ⟨o, n, rfl, _, hrc, h0, h10⟩ := he
  rw [retryLeft_of_count o n hrc]
  omega

theorem drainBudget_le (q : List JSValue) (hent : ∀ e ∈ q, IsEntry e) :
    drainBudget q ≤ 11 * q.length := by
  induction q with
  | nil => simp [drainBudget]
  | cons x t ih =>
    have hx := (retryLeft_pos x (hent x (List.mem_cons_self _ _))).2
    have ht := ih (fun e he => hent e (List.mem_cons_of_mem _ he))
    rw [drainBudget_cons, List.length_cons]
    omega

theorem drainBudget_zero (q : List JSValue) (hent : ∀ e ∈ q, IsEntry e)
    (h : drainBudget q = 0) : q = [] := by
  cases q with
  | nil => rfl
  | cons x t =>
    have hx := (retryLeft_pos x (hent x (List.mem_cons_self _ _))).1
    rw [drainBudget_cons] at h
    omega

theorem tick_entry_step (now : String) (out : Outcome) (st : Storage) (h : JSObject)
    (t recs : List JSValue)
    (hstored : st.queue = .json (.arr (.obj h :: t)))
    (hent : IsEntry (.obj h))
    (hrec : getRecent st = .ok (.arr recs)) (hrecs : ∀ r ∈ recs, IsRecord r)
    (hadm : out.isFailure = true ∨ out.IsSuccess) :
    ∃ st', tick now out st = some (.returned st') ∧
      (∃ recs', getRecent st' = .ok (.arr recs') ∧ ∀ r ∈ recs', IsRecord r) ∧
      (st'.queue = .json (.arr t) ∨
        ∃ n, getProp h "retry_count" = some (.num n) ∧ 0 ≤ n ∧ n < 10 ∧
          st'.queue = .json (.arr (.obj (setProp h "retry_count" (.num (n + 1))) :: t))) := by
  obtain ⟨o, n, ho, htext, hrc, h0, h10⟩ := hent
  cases ho
  rcases hadm with hf | ⟨body, id, hout, hid⟩
  · have hstep := tick_failure now out h t st n hstored hrc h0 h10 hf
    by_cases hgt : n + 1 > 10
    · simp only [hgt, if_true] at hstep
      exact ⟨_, hstep, ⟨recs, hrec, hrecs⟩, Or.inl rfl⟩
    · simp only [hgt, if_false] at hstep
      exact ⟨_, hstep, ⟨recs, hrec, hrecs⟩, Or.inr ⟨n, hrc, h0, by omega, rfl⟩⟩
  · subst hout
    have hrun := tick_success now h t st body id recs hstored hid hrec htext hrecs
    refine ⟨_, hrun, ⟨popIfOver (.obj (recentRecord now h (some (.str id))) :: recs), rfl, ?_⟩,
      Or.inl rfl⟩
    intro r hr
    rcases List.mem_cons.mp (popIfOver_mem _ _ hr) with h1 | h1
    · rw [h1]
      exact recentRecord_isRecord now h _ htext
    · exact hrecs r h1

theorem setProp_isEntry (h : JSObject) (n : Int) (hent : IsEntry (.obj h))
    (h0 : 0 ≤ n) (h10 : n < 10) :
    IsEntry (.obj (setProp h "retry_count" (.num (n + 1)))) := by
  obtain ⟨o, m, ho, ⟨⟨s, hs⟩, hty⟩, _, _, _⟩ := hent
  cases ho
  exact ⟨_, n + 1, rfl,
    ⟨⟨s, by rw [getProp_setProp_other _ _ _ _ (by decide), hs]⟩,
      by rw [getProp_setProp_other _ _ _ _ (by decide), hty]⟩,
    getProp_setProp_same _ _ _, by omega, by omega⟩

theorem drain_run (outs : List (String × Outcome)) :
    ∀ (st : Storage) (q recs : List JSValue), getQueue st = .ok (.arr q) →
      (∀ e ∈ q, IsEntry e) → getRecent st = .ok (.arr recs) → (∀ r ∈ recs, IsRecord r) →
      (∀ p ∈ outs, p.2.isFailure = true ∨ p.2.IsSuccess) →
      ∃ st' q', runTicks outs st = some st' ∧ getQueue st' = .ok (.arr q') ∧
        (∀ e ∈ q', IsEntry e) ∧ drainBudget q' ≤ drainBudget q - outs.length := by
  induction outs with
  | nil =>
    intro st q recs hq hent _ _ _
    exact ⟨st, q, rfl, hq, hent, by simp⟩
  | cons p rest ih =>
    intro st q recs hq hent hrec hrecs houts
    obtain ⟨now, out⟩ := p
    have hadm := houts (now, out) (List.mem_cons_self _ _)
    have hrest : ∀ x ∈ rest, x.2.isFailure = true ∨ x.2.IsSuccess :=
      fun x hx => houts x (List.mem_cons_of_mem _ hx)
    cases q with
    | nil =>
      have htick : tick now out st = some (.returned st) := by
        simp only [tick, tickStart, hq]
      obtain ⟨st', q', hrun, hq', hent', hb⟩ := ih st [] recs hq hent hrec hrecs hrest
      refine ⟨st', q', ?_, hq', hent', ?_⟩
      · simp only [runTicks, htick, Completion.storage, hrun]
      · have h0 : drainBudget ([] : List JSValue) = 0 := rfl
        rw [h0] at hb ⊢
        omega
    | cons e t =>
      have he := hent e (List.mem_cons_self _ _)
      have htail : ∀ x ∈ t, IsEntry x := fun x hx => hent x (List.mem_cons_of_mem _ hx)
      obtain ⟨h, n0, rfl, _, hrc0, _, _⟩ := he
      have he := hent (.obj h) (List.mem_cons_self _ _)
      have hstored : st.queue = .json (.arr (.obj h :: t)) := by
        rcases getQueue_arr_cases st _ hq with hs | ⟨hs, _⟩
        · exact hs
        · cases hs
      obtain ⟨st1, htick, ⟨recs1, hrec1, hrecs1⟩, hcase⟩ :=
        tick_entry_step now out st h t recs hstored he hrec hrecs hadm
      have hpos := (retryLeft_pos _ he).1
      rcases hcase with hq1 | ⟨n, hrc, h0, h10, hq1⟩
      · have hg1 : getQueue st1 = .ok (.arr t) := by
          simp only [getQueue, hq1, parseOrEmpty]
        obtain ⟨st', q', hrun, hq', hent', hb⟩ := ih st1 t recs1 hg1 htail hrec1 hrecs1 hrest
        refine ⟨st', q', ?_, hq', hent', ?_⟩
        · simp only [runTicks, htick, Completion.storage, hrun]
        · rw [drainBudget_cons, List.length_cons]
          omega
      · have hg1 : getQueue st1 =
            .ok (.arr (.obj (setProp h "retry_count" (.num (n + 1))) :: t)) := by
          simp only [getQueue, hq1, parseOrEmpty]
        have hent1 : ∀ x ∈ JSValue.obj (setProp h "retry_count" (.num (n + 1))) :: t,
            IsEntry x := by
          intro x hx
          rcases List.mem_cons.mp hx with hx1 | hx1
          · rw [hx1]; exact setProp_isEntry h n he h0 h10
          · exact htail x hx1
        obtain ⟨st', q', hrun, hq', hent', hb⟩ := ih st1 _ recs1 hg1 hent1 hrec1 hrecs1 hrest
        refine ⟨st', q', ?_, hq', hent', ?_⟩
        · simp only [runTicks, htick, Completion.storage, hrun]
        · have hl1 : retryLeft (.obj (setProp h "retry_count" (.num (n + 1)))) =
              (11 - (n + 1)).toNat :=
            retryLeft_of_count _ _ (getProp_setProp_same _ _ _)
          have hl0 : retryLeft (.obj h) = (11 - n).toNat := retryLeft_of_count h n hrc
          rw [drainBudget_cons, hl1] at hb
          rw [drainBudget_cons, hl0, List.length_cons]
          omega

/-- The drain in the runs where every tick is answered by a failure or by a delivery: for a
stored queue of n well-formed entries whose retry counts lie from 0 to 10 (and a
well-formed history), any run of at least 11 * n such ticks returns and ends with an
empty queue, and the queue is already empty after the first 11 * n of them. One such tick
on a non-empty queue either leaves the tail alone, one entry shorter, or leaves the same
queue with the retry_count of the head raised by one. A tick answered by 2xx without a
string report_id is not covered by the last part. -/
theorem bounded_drain_of_clear_outcomes (st : Storage) (q recs : List JSValue)
    (outs : List (String × Outcome))
    (hq : getQueue st = .ok (.arr q)) (hent : ∀ e ∈ q, IsEntry e)
    (hrec : getRecent st = .ok (.arr recs)) (hrecs : ∀ r ∈ recs, IsRecord r)
    (houts : ∀ p ∈ outs, p.2.isFailure = true ∨ p.2.IsSuccess)
    (hlen : 11 * q.length ≤ outs.length) :
    (∃ st', runTicks outs st = some st' ∧ getQueue st' = .ok (.arr [])) ∧
    (∃ st1, runTicks (outs.take (11 * q.length)) st = some st1 ∧
      getQueue st1 = .ok (.arr [])) ∧
    ∀ now out h t, q = .obj h :: t → (out.isFailure = true ∨ out.IsSuccess) →
      ∃ st2, tick now out st = some (.returned st2) ∧
        (st2.queue = .json (.arr t) ∨
          ∃ n, getProp h "retry_count" = some (.num n) ∧
            st2.queue =
              .json (.arr (.obj (setProp h "retry_count" (.num (n + 1))) :: t))) := by
  have hbound := drainBudget_le q hent
  refine ⟨?_, ?_, ?_⟩
  · obtain ⟨st', q', hrun, hq', hent', hb⟩ := drain_run outs st q recs hq hent hrec hrecs houts
    have hz : q' = [] := drainBudget_zero q' hent' (by omega)
    subst hz
    exact ⟨st', hrun, hq'⟩
  · obtain ⟨st', q', hrun, hq', hent', hb⟩ :=
      drain_run (outs.take (11 * q.length)) st q recs hq hent hrec hrecs
        (fun p hp => houts p (List.mem_of_mem_take hp))
    have hl : (outs.take (11 * q.length)).length = 11 * q.length := by
      rw [List.length_take]
      omega
    have hz : q' = [] := drainBudget_zero q' hent' (by omega)
    subst hz
    exact ⟨st', hrun, hq'⟩
  · intro now out h t hqt hadm
    subst hqt
    have hstored : st.queue = .json (.arr (.obj h :: t)) := by
      rcases getQueue_arr_cases st _ hq with hs | ⟨hs, _⟩
      · exact hs
      · cases hs
    obtain ⟨st2, htick, _, hcase⟩ := tick_entry_step now out st h t recs hstored
      (hent _ (List.mem_cons_self _ _)) hrec hrecs hadm
    refine ⟨st2, htick, ?_⟩
    rcases hcase with h1 | ⟨n, hrc, _, _, h1⟩
    · exact Or.inl h1
    · exact Or.inr ⟨n, hrc, h1⟩

theorem sampleEntry_isEntry (message : String) (n : Int) (h0 : 0 ≤ n) (h10 : n ≤ 10) :
    IsEntry (.obj (sampleEntry message n)) :=
  ⟨_, n, rfl, ⟨⟨message, rfl⟩, rfl⟩, rfl, h0, h10⟩

/-- The drain at a concrete run: two entries with counts 9 and 0 and a network that stays
down for 22 ticks. -/
theorem bounded_drain_of_clear_outcomes_example :
    getQueue (sampleStorage [.obj (sampleEntry "a" 9), .obj (sampleEntry "b" 0)]) =
      .ok (.arr [.obj (sampleEntry "a" 9), .obj (sampleEntry "b" 0)]) ∧
    (∀ e ∈ [JSValue.obj (sampleEntry "a" 9), .obj (sampleEntry "b" 0)], IsEntry e) ∧
    getRecent (sampleStorage [.obj (sampleEntry "a" 9), .obj (sampleEntry "b" 0)]) =
      .ok (.arr []) ∧
    (∀ r ∈ ([] : List JSValue), IsRecord r) ∧
    (∀ p ∈ List.replicate 22 ("t", Outcome.networkFault),
      p.2.isFailure = true ∨ p.2.IsSuccess) ∧
    11 * [JSValue.obj (sampleEntry "a" 9), .obj (sampleEntry "b" 0)].length ≤
      (List.replicate 22 ("t", Outcome.networkFault)).length ∧
    ∃ st', runTicks (List.replicate 22 ("t", Outcome.networkFault))
        (sampleStorage [.obj (sampleEntry "a" 9), .obj (sampleEntry "b" 0)]) = some st' ∧
      getQueue st' = .ok (.arr []) :=
  have hent : ∀ e ∈ [JSValue.obj (sampleEntry "a" 9), .obj (sampleEntry "b" 0)],
      IsEntry e := by
    intro e he
    simp only [List.mem_cons, List.mem_singleton, List.not_mem_nil, or_false] at he
    rcases he with rfl | rfl
    · exact sampleEntry_isEntry "a" 9 (by decide) (by decide)
    · exact sampleEntry_isEntry "b" 0 (by decide) (by decide)
  have houts : ∀ p ∈ List.replicate 22 ("t", Outcome.networkFault),
      p.2.isFailure = true ∨ p.2.IsSuccess := by
    intro p hp
    rw [List.eq_of_mem_replicate hp]
    exact Or.inl rfl
  ⟨rfl, hent, rfl, fun _ h => absurd h (List.not_mem_nil _), houts, by decide,
    (bounded_drain_of_clear_outcomes
      (sampleStorage [.obj (sampleEntry "a" 9), .obj (sampleEntry "b" 0)])
      [.obj (sampleEntry "a" 9), .obj (sampleEntry "b" 0)] []
      (List.replicate 22 ("t", Outcome.networkFault)) rfl hent rfl
      (fun _ h => absurd h (List.not_mem_nil _)) houts (by decide)).1⟩

/-! ## The drain under any outcome -/

theorem reportIdString_some (v : JSValue) (id : String) (h : reportIdString v = some id) :
    ∃ body, v = .obj body ∧ getProp body "report_id" = some (.str id) := by
  cases v with
  | obj body =>
    refine ⟨body, rfl, ?_⟩
    simp only [reportIdString] at h
    cases hg : getProp body "report_id" with
    | none => rw [hg] at h; cases h
    | some w =>
      rw [hg] at h
      cases w <;> simp at h
      rw [h]
  | null => cases h
  | bool b => cases h
  | num n => cases h
  | str x => cases h
  | arr xs => cases h

theorem drainBudget_tail (t : List JSValue) : drainBudget t.tail ≤ drainBudget t := by
  cases t with
  | nil => exact le_refl _
  | cons x rest =>
    rw [drainBudget_cons]
    exact Nat.le_add_left _ _

theorem tick_any_step (now : String) (out : Outcome) (st : Storage) (h : JSObject)
    (t recs : List JSValue)
    (hstored : st.queue = .json (.arr (.obj h :: t)))
    (hent : ∀ e ∈ JSValue.obj h :: t, IsEntry e)
    (hrec : getRecent st = .ok (.arr recs)) (hrecs : ∀ r ∈ recs, IsRecord r) :
    ∃ st' q', tick now out st = some (.returned st') ∧ getQueue st' = .ok (.arr q') ∧
      (∀ e ∈ q', IsEntry e) ∧
      (∃ recs', getRecent st' = .ok (.arr recs') ∧ ∀ r ∈ recs', IsRecord r) ∧
      drainBudget q' + 1 ≤ drainBudget (.obj h :: t) := by
  have he := hent _ (List.mem_cons_self _ _)
  have htail : ∀ x ∈ t, IsEntry x := fun x hx => hent x (List.mem_cons_of_mem _ hx)
  have hpos := (retryLeft_pos _ he).1
  have clear : (out.isFailure = true ∨ out.IsSuccess) →
      ∃ st' q', tick now out st = some (.returned st') ∧ getQueue st' = .ok (.arr q') ∧
        (∀ e ∈ q', IsEntry e) ∧
        (∃ recs', getRecent st' = .ok (.arr recs') ∧ ∀ r ∈ recs', IsRecord r) ∧
        drainBudget q' + 1 ≤ drainBudget (.obj h :: t) := by
    intro hadm
    obtain ⟨st1, htick, hwf, hcase⟩ :=
      tick_entry_step now out st h t recs hstored he hrec hrecs hadm
    rcases hcase with hq1 | ⟨n, hrc, h0, h10, hq1⟩
    · refine ⟨st1, t, htick, by simp only [getQueue, hq1, parseOrEmpty], htail, hwf, ?_⟩
      rw [drainBudget_cons]
      omega
    · refine ⟨st1, .obj (setProp h "retry_count" (.num (n + 1))) :: t, htick,
        by simp only [getQueue, hq1, parseOrEmpty], ?_, hwf, ?_⟩
      · intro x hx
        rcases List.mem_cons.mp hx with hx1 | hx1
        · rw [hx1]; exact setProp_isEntry h n he h0 h10
        · exact htail x hx1
      · rw [drainBudget_cons, drainBudget_cons,
          retryLeft_of_count _ _ (getProp_setProp_same _ _ _), retryLeft_of_count h n hrc]
        omega
  cases out with
  | networkFault => exact clear (Or.inl rfl)
  | httpError status => exact clear (Or.inl rfl)
  | bodyNotJson => exact clear (Or.inl rfl)
  | json v =>
    cases hid : reportIdString v with
    | some id =>
      obtain ⟨body, hv, hb⟩ := reportIdString_some v id hid
      exact clear (Or.inr ⟨body, id, by rw [hv], hb⟩)
    | none =>
      obtain ⟨o, n, ho, _, hrc, h0, h10⟩ := he
      cases ho
      have hl0 : retryLeft (.obj h) = (11 - n).toNat := retryLeft_of_count h n hrc
      have hbt := drainBudget_tail t
      have htt : ∀ x ∈ t.tail, IsEntry x := fun x hx => htail x (List.mem_of_mem_tail hx)
      by_cases hgt : n + 1 > 10
      · refine ⟨saveQueue t.tail (saveQueue t st), t.tail, ?_, rfl, htt,
          ⟨recs, hrec, hrecs⟩, ?_⟩
        · simp only [tick, tickStart_head st h t hstored, tickResume, tickTry, hid,
            List.tail_cons, tickCatch, hrc, nextRetryCount_num n h0 h10, hgt, if_true]
        · rw [drainBudget_cons]
          omega
      · refine ⟨saveQueue (setFirst t (.obj (setProp h "retry_count" (.num (n + 1)))))
            (saveQueue t st), _, ?_, rfl, ?_, ⟨recs, hrec, hrecs⟩, ?_⟩
        · simp only [tick, tickStart_head st h t hstored, tickResume, tickTry, hid,
            List.tail_cons, tickCatch, hrc, nextRetryCount_num n h0 h10, hgt, if_false]
        · intro x hx
          rcases List.mem_cons.mp hx with hx1 | hx1
          · rw [hx1]
            exact setProp_isEntry h n (hent _ (List.mem_cons_self _ _)) h0 (by omega)
          · exact htt x hx1
        · simp only [setFirst]
          rw [drainBudget_cons, drainBudget_cons,
            retryLeft_of_count _ _ (getProp_setProp_same _ _ _), hl0]
          omega

theorem drain_run_any (outs : List (String × Outcome)) :
    ∀ (st : Storage) (q recs : List JSValue), getQueue st = .ok (.arr q) →
      (∀ e ∈ q, IsEntry e) → getRecent st = .ok (.arr recs) → (∀ r ∈ recs, IsRecord r) →
      ∃ st' q', runTicks outs st = some st' ∧ getQueue st' = .ok (.arr q') ∧
        (∀ e ∈ q', IsEntry e) ∧ drainBudget q' ≤ drainBudget q - outs.length := by
  induction outs with
  | nil =>
    intro st q recs hq hent _ _
    exact ⟨st, q, rfl, hq, hent, by simp⟩
  | cons p rest ih =>
    intro st q recs hq hent hrec hrecs
    obtain ⟨now, out⟩ := p
    cases q with
    | nil =>
      have htick : tick now out st = some (.returned st) := by
        simp only [tick, tickStart, hq]
      obtain ⟨st', q', hrun, hq', hent', hb⟩ := ih st [] recs hq hent hrec hrecs
      refine ⟨st', q', ?_, hq', hent', ?_⟩
      · simp only [runTicks, htick, Completion.storage, hrun]
      · have h0 : drainBudget ([] : List JSValue) = 0 := rfl
        rw [h0] at hb ⊢
        omega
    | cons e t =>
      obtain ⟨h, n0, rfl, _, _, _, _⟩ := hent e (List.mem_cons_self _ _)
      have hstored : st.queue = .json (.arr (.obj h :: t)) := by
        rcases getQueue_arr_cases st _ hq with hs | ⟨hs, _⟩
        · exact hs
        · cases hs
      obtain ⟨st1, q1, htick, hq1, hent1, ⟨recs1, hrec1, hrecs1⟩, hb1⟩ :=
        tick_any_step now out st h t recs hstored hent hrec hrecs
      obtain ⟨st', q', hrun, hq', hent', hb⟩ := ih st1 q1 recs1 hq1 hent1 hrec1 hrecs1
      refine ⟨st', q', ?_, hq', hent', ?_⟩
      · simp only [runTicks, htick, Completion.storage, hrun]
      · rw [List.length_cons]
        omega

/-- The drain under any outcome: for a stored queue of n well-formed entries whose retry
counts lie from 0 to 10 (and a well-formed history), any run of at least 11 * n ticks,
whatever each delivery attempt comes to, a 2xx answer without report_id included, returns
and ends with an empty queue. -/
theorem bounded_drain_any_outcome (st : Storage) (q recs : List JSValue)
    (outs : List (String × Outcome))
    (hq : getQueue st = .ok (.arr q)) (hent : ∀ e ∈ q, IsEntry e)
    (hrec : getRecent st = .ok (.arr recs)) (hrecs : ∀ r ∈ recs, IsRecord r)
    (hlen : 11 * q.length ≤ outs.length) :
    ∃ st', runTicks outs st = some st' ∧ getQueue st' = .ok (.arr []) := by
  have hbound := drainBudget_le q hent
  obtain ⟨st', q', hrun, hq', hent', hb⟩ := drain_run_any outs st q recs hq hent hrec hrecs
  have hz : q' = [] := drainBudget_zero q' hent' (by omega)
  subst hz
  exact ⟨st', hrun, hq'⟩

/-! ## The order and the drain under a response without report_id -/

/-- C6, the failing input: from an empty queue two submits fail and append A and then B;
the tick that follows is answered with 200 and a JSON body without report_id. The callback
shifts A out and saves, `result.report_id.substring` throws, and the `catch` block writes A
with retry_count 1 over B. The stored queue is A alone: B, appended second, has left the
queue while A, appended first, is still in it. -/
theorem fifo_broken_by_malformed_response :
    appendedEntries [.submit "t1" false .networkFault sampleReport,
        .submit "t2" false .networkFault sampleReportWithCount,
        .tick "t3" (.json (.obj []))] =
      [.obj (queueEntry "t1" sampleReport), .obj (queueEntry "t2" sampleReportWithCount)] ∧
    runOps [.submit "t1" false .networkFault sampleReport,
        .submit "t2" false .networkFault sampleReportWithCount] (sampleStorage []) =
      some (sampleStorage
        [.obj (queueEntry "t1" sampleReport), .obj (queueEntry "t2" sampleReportWithCount)]) ∧
    runOps [.submit "t1" false .networkFault sampleReport,
        .submit "t2" false .networkFault sampleReportWithCount,
        .tick "t3" (.json (.obj []))] (sampleStorage []) =
      some (sampleStorage
        [.obj (setProp (queueEntry "t1" sampleReport) "retry_count" (.num 1))]) :=
  ⟨rfl, rfl, rfl⟩

/-- C13, the failing input: the queue holds a with retry_count 10 and b with retry_count 0,
and the tick is answered with 200 and a JSON body without report_id. The callback shifts a
out and saves, `result.report_id.substring` throws, and the `catch` block, with the count
of a now 11, shifts once more: the stored queue is empty after one tick, two entries
shorter. With a at retry_count 5 the same answer leaves a alone with retry_count 6: the
queue is one shorter and the count of the head is raised, both in one tick, and the entry
that went is b. -/
theorem drain_step_broken_by_malformed_response :
    tick "t" (.json (.obj []))
        (sampleStorage [.obj (sampleEntry "a" 10), .obj (sampleEntry "b" 0)]) =
      some (.returned (sampleStorage [])) ∧
    tick "t" (.json (.obj []))
        (sampleStorage [.obj (sampleEntry "a" 5), .obj (sampleEntry "b" 0)]) =
      some (.returned (sampleStorage [.obj (sampleEntry "a" 6)])) :=
  ⟨rfl, rfl⟩

end AcceleratedReport
